import Mathlib

/-!
# `getcracked::vector<T, Allocator>` (src/vector.cpp)

A shallow embedding of the growable array of `src/vector.cpp` and the
properties of its storage engine.

## The model

* `size_t` is a 64-bit unsigned integer: a natural number at most `SIZE_MAX`,
  with `++`, `--` and `*` wrapping modulo `2 ^ 64`.
* Raw memory is a heap of blocks.  A block is the list of its slots, a slot
  being `none` (allocated, no object constructed) or `some x` (a live `T`), and
  a flag telling whether the block is still allocated.  A `T*` is `none`
  (`nullptr`) or `some b`, the block `b`; the vector only ever holds pointers to
  the start of a block.
* `Allocator::allocate(n)` throws `std::bad_alloc` when `n` exceeds the limit of
  the heap, and otherwise hands out a fresh block of `n` raw slots.  The limit
  of a real allocator is below `SIZE_MAX / 3` (`Heap.Realistic`):
  `std::allocator<T>` refuses more than `PTRDIFF_MAX / sizeof(T)` slots.
* Every member function maps the state it starts from to an `Outcome`: normal
  return together with the state reached, an exception together with the state
  in which it was thrown, or undefined behaviour (an access outside a block, to
  a released block, through `nullptr`, or to a slot holding no live object).
* Copy construction of a `T` copies the value and does not throw.
* The move constructor and the move assignment operator have no model: both
  call `steal_from(other)` with the lvalue `other`, which does not bind to the
  parameter `vector&& other`, so that neither compiles once it is instantiated,
  and `operator=(vector&&)` has no `return` statement.  `steal_from`, the member
  they are written to call, is modelled as it stands.
-/

namespace getcracked

/-! ## Machine integers -/

/-- The value of `std::numeric_limits<size_t>::max()` for a 64-bit `size_t`. -/
def SIZE_MAX : Nat := 2 ^ 64 - 1

/-- Reduction of an arithmetic result to `size_t`. -/
def wrap (n : Nat) : Nat := n % (SIZE_MAX + 1)

/-! ## Raw memory -/

/-- One block handed out by the allocator. -/
structure Block (T : Type) where
  /-- The slots: `none` is raw storage, `some x` a live object. -/
  cells : List (Option T)
  /-- The flag is `true` until the block is given back. -/
  live : Bool
deriving DecidableEq, Repr

/-- The calls received by the allocator. -/
inductive Event where
  | allocate (block : Nat) (n : Nat)
  | deallocate (p : Option Nat) (n : Nat)
deriving DecidableEq, Repr

/-- The memory the vectors live in. -/
structure Heap (T : Type) where
  /-- Every block ever handed out; a pointer is an index in this list. -/
  blocks : List (Block T)
  /-- The largest request the allocator grants. -/
  limit : Nat
  /-- The calls made to the allocator, oldest first. -/
  trace : List Event
deriving DecidableEq, Repr

/-- The exceptions of the program. -/
inductive Exception where
  | out_of_range
  | bad_alloc
deriving DecidableEq, Repr

/-- What a call does: it returns, it throws, or its behaviour is undefined. -/
inductive Outcome (σ α : Type) where
  | ok (value : α) (state : σ)
  | threw (e : Exception) (state : σ)
  | ub
deriving DecidableEq, Repr

namespace Heap

variable {T : Type}

/-- The call `allocator.allocate(n)`: `none` stands for `std::bad_alloc`. -/
def allocate (h : Heap T) (n : Nat) : Option (Heap T × Nat) :=
  if n ≤ h.limit then
    some ({ h with
            blocks := h.blocks ++ [{ cells := List.replicate n none, live := true }]
            trace := h.trace ++ [Event.allocate h.blocks.length n] },
          h.blocks.length)
  else none

/-- The call `allocator.deallocate(p, n)`: `none` stands for undefined behaviour
(`p` is not a block, or a block already released).  Releasing `nullptr` only
records the call. -/
def deallocate (h : Heap T) (p : Option Nat) (n : Nat) : Option (Heap T) :=
  match p with
  | none => some { h with trace := h.trace ++ [Event.deallocate none n] }
  | some b =>
    match h.blocks[b]? with
    | none => none
    | some blk =>
      if blk.live then
        some { h with
               blocks := h.blocks.set b { blk with live := false }
               trace := h.trace ++ [Event.deallocate (some b) n] }
      else none

/-- The value of `p[i]`: `none` stands for undefined behaviour. -/
def load (h : Heap T) (p : Option Nat) (i : Nat) : Option T :=
  match p with
  | none => none
  | some b =>
    match h.blocks[b]? with
    | none => none
    | some blk => if blk.live then (blk.cells[i]?).join else none

/-- The placement `new (p + i) T{x}`: `none` stands for undefined behaviour. -/
def construct (h : Heap T) (p : Option Nat) (i : Nat) (x : T) : Option (Heap T) :=
  match p with
  | none => none
  | some b =>
    match h.blocks[b]? with
    | none => none
    | some blk =>
      if blk.live ∧ i < blk.cells.length then
        some { h with blocks := h.blocks.set b { blk with cells := blk.cells.set i (some x) } }
      else none

/-- The destructor call `p[i].~T()`: `none` stands for undefined behaviour. -/
def destroy (h : Heap T) (p : Option Nat) (i : Nat) : Option (Heap T) :=
  match p with
  | none => none
  | some b =>
    match h.blocks[b]? with
    | none => none
    | some blk =>
      if blk.live ∧ (blk.cells[i]?).join.isSome then
        some { h with blocks := h.blocks.set b { blk with cells := blk.cells.set i none } }
      else none

/-- The loop `for (size_t i{}; i < size_; ++i) new(memory + i) T{data_[i]};` of
`reserve`, at counter `i` with `n` rounds to go. -/
def copy_elements (data_ memory : Option Nat) : Nat → Nat → Heap T → Option (Heap T)
  | _, 0, h => some h
  | i, n + 1, h =>
    match h.load data_ i with
    | none => none
    | some x =>
      match h.construct memory i x with
      | none => none
      | some h1 => copy_elements data_ memory (i + 1) n h1

/-- The loop `for (size_t i{}; i < other.size_; i++) new(memory) T{other.data_[i]};`
of `copy_from`, at counter `i` with `n` rounds to go: every round constructs
at `memory`, slot 0. -/
def copy_to_front (data_ memory : Option Nat) : Nat → Nat → Heap T → Option (Heap T)
  | _, 0, h => some h
  | i, n + 1, h =>
    match h.load data_ i with
    | none => none
    | some x =>
      match h.construct memory 0 x with
      | none => none
      | some h1 => copy_to_front data_ memory (i + 1) n h1

/-- The loop `for (size_t i{}; i < size_; ++i) data_[i].~T();`, at counter `i`
with `n` rounds to go. -/
def destroy_elements (data_ : Option Nat) : Nat → Nat → Heap T → Option (Heap T)
  | _, 0, h => some h
  | i, n + 1, h =>
    match h.destroy data_ i with
    | none => none
    | some h1 => destroy_elements data_ (i + 1) n h1

/-- The loop `for (size_t i{ size_ }; i < size; ++i) new (data_ + i) T{ item };`
of `resize`, at counter `i` with `n` rounds to go. -/
def fill_elements (data_ : Option Nat) (item : T) : Nat → Nat → Heap T → Option (Heap T)
  | _, 0, h => some h
  | i, n + 1, h =>
    match h.construct data_ i item with
    | none => none
    | some h1 => fill_elements data_ item (i + 1) n h1

end Heap

/-! ## The vector -/

/-- The data members of one `vector` object. -/
structure Vec where
  size_ : Nat
  capacity_ : Nat
  data_ : Option Nat
deriving DecidableEq, Repr

/-- The members as their default initialisers leave them:
`size_{}`, `capacity_{}`, `data_{ nullptr }`. -/
def Vec.fresh : Vec := { size_ := 0, capacity_ := 0, data_ := none }

/-- The memory and the object `*this`. -/
structure State (T : Type) where
  heap : Heap T
  self : Vec
deriving DecidableEq, Repr

/-- The memory, the object `*this` and a second object `other`. -/
structure State2 (T : Type) where
  heap : Heap T
  self : Vec
  other : Vec
deriving DecidableEq, Repr

variable {T : Type}

/-- The member `size_t capacity_increase_factor() const`, which returns 3. -/
def capacity_increase_factor : Nat := 3

/-- The member `bool empty() const`. -/
def empty (s : State T) : Bool := s.self.size_ == 0

/-- The member `size_t get_size() const`. -/
def get_size (s : State T) : Nat := s.self.size_

/-- The member `size_t get_capacity() const`. -/
def get_capacity (s : State T) : Nat := s.self.capacity_

/-- The member `T& at(size_t index)`, returning the object referred to. -/
def «at» (s : State T) (index : Nat) : Outcome (State T) T :=
  if index ≥ s.self.size_ then .threw .out_of_range s
  else
    match s.heap.load s.self.data_ index with
    | none => .ub
    | some x => .ok x s

/-- The member `void reserve(size_t capacity)`. -/
def reserve (s : State T) (capacity : Nat) : Outcome (State T) Unit :=
  if capacity = 0 then .ok () s
  else
    match s.heap.allocate capacity with
    | none => .threw .bad_alloc s
    | some (h1, memory) =>
      match s.self.data_ with
      | none =>
        .ok () { heap := h1, self := { s.self with data_ := some memory, capacity_ := capacity } }
      | some d =>
        match Heap.copy_elements (some d) (some memory) 0 s.self.size_ h1 with
        | none => .ub
        | some h2 =>
          match Heap.destroy_elements (some d) 0 s.self.size_ h2 with
          | none => .ub
          | some h3 =>
            match h3.deallocate (some d) s.self.capacity_ with
            | none => .ub
            | some h4 =>
              .ok () { heap := h4,
                       self := { s.self with data_ := some memory, capacity_ := capacity } }

/-- The member `void shrink_to_fit()`. -/
def shrink_to_fit (s : State T) : Outcome (State T) Unit :=
  reserve s s.self.size_

/-- The member `bool should_increase_capacity() const`. -/
def should_increase_capacity (s : State T) : Bool :=
  decide (s.self.capacity_ < SIZE_MAX / capacity_increase_factor) &&
    decide (s.self.capacity_ / capacity_increase_factor ≤ s.self.size_)

/-- The argument `capacity * capacity_increase_factor()` that
`try_expand_capacity` passes to `reserve`, together with the value of the
local `capacity` just before the multiplication. -/
def expand_request (capacity_ : Nat) : Nat × Nat :=
  let capacity := if capacity_ = 0 then 1 else capacity_
  let maximum_capacity := SIZE_MAX
  let capacity :=
    if maximum_capacity / capacity_increase_factor < capacity then maximum_capacity
    else capacity
  (capacity, wrap (capacity * capacity_increase_factor))

/-- The member `void try_expand_capacity()`. -/
def try_expand_capacity (s : State T) : Outcome (State T) Unit :=
  if !should_increase_capacity s then .ok () s
  else reserve s (expand_request s.self.capacity_).2

/-- The statement `new(data_ + size_++) T{item};` shared by `push_back` and
`emplace_back`. -/
def construct_back (s : State T) (item : T) : Outcome (State T) Unit :=
  match s.heap.construct s.self.data_ s.self.size_ item with
  | none => .ub
  | some h1 => .ok () { heap := h1, self := { s.self with size_ := wrap (s.self.size_ + 1) } }

/-- The member `void push_back(const T& item)`. -/
def push_back (s : State T) (item : T) : Outcome (State T) Unit :=
  match try_expand_capacity s with
  | .ok _ s1 => construct_back s1 item
  | .threw e s1 => .threw e s1
  | .ub => .ub

/-- The member `void emplace_back(Args&&... args)`; `item` is the value of
`T(args...)`. -/
def emplace_back (s : State T) (item : T) : Outcome (State T) Unit :=
  match try_expand_capacity s with
  | .ok _ s1 => construct_back s1 item
  | .threw e s1 => .threw e s1
  | .ub => .ub

/-- The member `void pop_back()`: `data_[--size_].~T();` -/
def pop_back (s : State T) : Outcome (State T) Unit :=
  let size := wrap (s.self.size_ + SIZE_MAX)
  match s.heap.destroy s.self.data_ size with
  | none => .ub
  | some h1 => .ok () { heap := h1, self := { s.self with size_ := size } }

/-- The loop `while (size_) pop_back();` of `clear`, given `fuel` rounds. -/
def pop_all : Nat → State T → Outcome (State T) Unit
  | 0, s => .ok () s
  | fuel + 1, s =>
    if s.self.size_ = 0 then .ok () s
    else
      match pop_back s with
      | .ok _ s1 => pop_all fuel s1
      | .threw e s1 => .threw e s1
      | .ub => .ub

/-- The member `void clear()`.  The loop runs at most `size_` rounds, each round that
returns lowering `size_` by one; the `std::allocator<T>` of the last statement
is the allocator of the model. -/
def clear (s : State T) : Outcome (State T) Unit :=
  match pop_all s.self.size_ s with
  | .ok _ s1 =>
    match s1.heap.deallocate s1.self.data_ s1.self.capacity_ with
    | none => .ub
    | some h1 => .ok () { s1 with heap := h1 }
  | .threw e s1 => .threw e s1
  | .ub => .ub

/-- The destructor `~vector()`. -/
def destructor (s : State T) : Outcome (State T) Unit := clear s

/-- The member `void resize(size_t size, const T& item)`. -/
def resize_fill (s : State T) (size : Nat) (item : T) : Outcome (State T) Unit :=
  if s.self.size_ > size then .ok () s
  else
    match reserve s size with
    | .ok _ s1 =>
      match Heap.fill_elements s1.self.data_ item s1.self.size_ (size - s1.self.size_) s1.heap with
      | none => .ub
      | some h1 => .ok () { heap := h1, self := { s1.self with size_ := size } }
    | .threw e s1 => .threw e s1
    | .ub => .ub

/-- The member `void resize(size_t size)`, which calls `resize(size, T{})`. -/
def resize [Inhabited T] (s : State T) (size : Nat) : Outcome (State T) Unit :=
  resize_fill s size default

/-- The constructor `vector(size_t capacity)`. -/
def vector_with_capacity (h : Heap T) (capacity : Nat) : Outcome (State T) Unit :=
  reserve { heap := h, self := Vec.fresh } capacity

/-- The constructor `vector() : vector(1)`. -/
def vector_default (h : Heap T) : Outcome (State T) Unit :=
  vector_with_capacity h 1

/-- The member `void steal_from(vector&& other)`, for `other` an object other than `*this`. -/
def steal_from (s : State2 T) : Outcome (State2 T) Unit :=
  .ok () { heap := s.heap,
           self := { data_ := s.other.data_, capacity_ := s.other.capacity_,
                     size_ := s.other.size_ },
           other := { s.other with data_ := none } }

/-- The member `void copy_from(const vector& other)`, for `other` an object other than
`*this`. -/
def copy_from (s : State2 T) : Outcome (State2 T) Unit :=
  match s.heap.allocate s.other.capacity_ with
  | none => .threw .bad_alloc s
  | some (h1, memory) =>
    match Heap.copy_to_front s.other.data_ (some memory) 0 s.other.size_ h1 with
    | none => .ub
    | some h2 =>
      let released : Option (Heap T) :=
        match s.self.data_ with
        | none => some h2
        | some d =>
          match Heap.destroy_elements (some d) 0 s.self.size_ h2 with
          | none => none
          | some h3 => h3.deallocate (some d) s.self.capacity_
      match released with
      | none => .ub
      | some h4 =>
        .ok () { heap := h4,
                 self := { data_ := some memory, capacity_ := s.other.capacity_,
                           size_ := s.other.size_ },
                 other := s.other }

/-- The copy constructor `vector(const vector& other)`. -/
def copy_construct (h : Heap T) (other : Vec) : Outcome (State2 T) Unit :=
  copy_from { heap := h, self := Vec.fresh, other := other }

/-- The copy assignment `vector& operator=(const vector& other)` with
`this != &other`. -/
def copy_assign (s : State2 T) : Outcome (State2 T) Unit :=
  copy_from s

/-- The copy assignment `vector& operator=(const vector& other)` with
`this == &other`: the identity test returns at once. -/
def copy_assign_self (s : State T) : Outcome (State T) Unit :=
  .ok () s

/-- The calls `push_back(x)` for each `x` of `items`, in order. -/
def push_back_all : State T → List T → Outcome (State T) Unit
  | s, [] => .ok () s
  | s, x :: xs =>
    match push_back s x with
    | .ok _ s1 => push_back_all s1 xs
    | .threw e s1 => .threw e s1
    | .ub => .ub

/-- A memory with no block, whose allocator grants what `std::allocator<T>`
accepts for a `T` of four bytes: at most `PTRDIFF_MAX / 4`, that is
`SIZE_MAX / 8`, slots. -/
def Heap.empty (T : Type) : Heap T := { blocks := [], limit := SIZE_MAX / 8, trace := [] }

/-- The allocator is a real one: it refuses every request of `SIZE_MAX / 3`
slots or more.  `std::allocator<T>::allocate` refuses more than
`PTRDIFF_MAX / sizeof(T)` slots, which is below `SIZE_MAX / 3` for every `T` of
two bytes or more, and no 64-bit machine has the `SIZE_MAX / 3` bytes that many
one-byte objects need. -/
def Heap.Realistic (h : Heap T) : Prop := h.limit < SIZE_MAX / 3

/-- The block of the vector was granted by a real allocator: `capacity_` is
within the limit of the allocator, which is below `SIZE_MAX / 3`.  The
constructors end in such a state and every member function keeps it so. -/
def Granted (s : State T) : Prop :=
  s.self.capacity_ ≤ s.heap.limit ∧ s.heap.Realistic

/-! ## Well-formed states -/

/-- The memory `h` with block `b` replaced by `blk`. -/
def Heap.put (h : Heap T) (b : Nat) (blk : Block T) : Heap T :=
  { h with blocks := h.blocks.set b blk }

/-- The vector of state `s` is well formed and holds the elements `es`:
`size_` is the number of elements and at most `capacity_`, which fits `size_t`;
`data_` is `nullptr` with `capacity_ == 0`, or a block not yet released of
`capacity_` slots whose first `size_` slots hold `es` as live objects. -/
def Holds (s : State T) (es : List T) : Prop :=
  s.self.size_ = es.length ∧ s.self.size_ ≤ s.self.capacity_ ∧ s.self.capacity_ ≤ SIZE_MAX ∧
  match s.self.data_ with
  | none => s.self.capacity_ = 0
  | some b => ∃ blk, s.heap.blocks[b]? = some blk ∧ blk.live = true ∧
      blk.cells.length = s.self.capacity_ ∧ ∀ i, i < es.length → blk.cells[i]? = some es[i]?

/-- The object `*this` of a state with two objects, in its memory. -/
def State2.dest (s : State2 T) : State T := { heap := s.heap, self := s.self }

/-- The object `other` of a state with two objects, in its memory. -/
def State2.source (s : State2 T) : State T := { heap := s.heap, self := s.other }

/-! ## Outcomes and the invariant -/

/-- Every state the call can end in, by return or by exception, satisfies `P`;
nothing is said of a call whose behaviour is undefined. -/
def Outcome.Keeps {σ α : Type} (o : Outcome σ α) (P : σ → Prop) : Prop :=
  match o with
  | .ok _ s => P s
  | .threw _ s => P s
  | .ub => True

/-- The state after `vector<T> v;` in `Heap.empty`. -/
def default_vector : State Nat :=
  { heap := { blocks := [{ cells := [none], live := true }]
              limit := SIZE_MAX / 8
              trace := [Event.allocate 0 1] }
    self := { size_ := 0, capacity_ := 1, data_ := some 0 } }

/-- The state after `vector<T> v; v.push_back(10);`. -/
def one_element : State Nat :=
  { heap := { blocks := [{ cells := [none], live := false },
                         { cells := [some 10, none, none], live := true }]
              limit := SIZE_MAX / 8
              trace := [Event.allocate 0 1, Event.allocate 1 3, Event.deallocate (some 0) 1] }
    self := { size_ := 1, capacity_ := 3, data_ := some 1 } }

/-- The state after `vector<T> v; v.push_back(10); v.push_back(20);`. -/
def two_elements : State Nat :=
  { heap := { blocks := [{ cells := [none], live := false },
                         { cells := [none, none, none], live := false },
                         { cells := [some 10, some 20] ++ List.replicate 7 none, live := true }]
              limit := SIZE_MAX / 8
              trace := [Event.allocate 0 1, Event.allocate 1 3, Event.deallocate (some 0) 1,
                        Event.allocate 2 9, Event.deallocate (some 1) 3] }
    self := { size_ := 2, capacity_ := 9, data_ := some 2 } }

/-- The state `one_element` with an allocator that grants at most 4 slots. -/
def one_element_tight : State Nat :=
  { one_element with heap := { one_element.heap with limit := 4 } }

/-! ## The allocator trace -/

theorem Heap.put_blocks_same {h : Heap T} {b : Nat} {old : Block T} (blk : Block T)
    (hb : h.blocks[b]? = some old) : (h.put b blk).blocks[b]? = some blk := by
  have hlt : b < h.blocks.length := by
    rcases Nat.lt_or_ge b h.blocks.length with hlt | hge
    · exact hlt
    · rw [List.getElem?_eq_none hge] at hb; cases hb
  simp [Heap.put, List.getElem?_set, hlt]

theorem Heap.put_blocks_other {h : Heap T} {b c : Nat} (blk : Block T) (hne : c ≠ b) :
    (h.put b blk).blocks[c]? = h.blocks[c]? := by
  simp [Heap.put, List.getElem?_set, Ne.symm hne]

theorem Heap.put_put (h : Heap T) (b : Nat) (b1 b2 : Block T) :
    (h.put b b1).put b b2 = h.put b b2 := by
  simp [Heap.put]

theorem Heap.put_limit (h : Heap T) (b : Nat) (blk : Block T) : (h.put b blk).limit = h.limit := rfl
theorem Heap.put_trace (h : Heap T) (b : Nat) (blk : Block T) : (h.put b blk).trace = h.trace := rfl
theorem Heap.put_length (h : Heap T) (b : Nat) (blk : Block T) :
    (h.put b blk).blocks.length = h.blocks.length := by simp [Heap.put]

theorem Heap.put_self {h : Heap T} {b : Nat} {blk : Block T} (hb : h.blocks[b]? = some blk) :
    h.put b blk = h := by
  cases h with
  | mk blocks limit trace =>
    simp only [Heap.put, Heap.mk.injEq, and_true]
    apply List.ext_getElem?
    intro i
    by_cases hi : i = b
    · subst hi
      have := Heap.put_blocks_same (h := ⟨blocks, limit, trace⟩) blk hb
      simp [Heap.put] at this
      simpa [hb] using this
    · simp [List.getElem?_set, Ne.symm hi]

theorem Heap.load_of {h : Heap T} {b : Nat} {blk : Block T}
    (hb : h.blocks[b]? = some blk) (hl : blk.live = true) (i : Nat) :
    h.load (some b) i = (blk.cells[i]?).join := by
  simp [Heap.load, hb, hl]

theorem Heap.construct_of {h : Heap T} {b : Nat} {blk : Block T}
    (hb : h.blocks[b]? = some blk) (hl : blk.live = true) {i : Nat}
    (hi : i < blk.cells.length) (x : T) :
    h.construct (some b) i x = some (h.put b { blk with cells := blk.cells.set i (some x) }) := by
  simp [Heap.construct, hb, hl, hi, Heap.put]

theorem Heap.destroy_of {h : Heap T} {b : Nat} {blk : Block T}
    (hb : h.blocks[b]? = some blk) (hl : blk.live = true) {i : Nat} {x : T}
    (hi : blk.cells[i]? = some (some x)) :
    h.destroy (some b) i = some (h.put b { blk with cells := blk.cells.set i none }) := by
  simp [Heap.destroy, hb, hl, hi, Heap.put]

theorem Heap.deallocate_of {h : Heap T} {b : Nat} {blk : Block T}
    (hb : h.blocks[b]? = some blk) (hl : blk.live = true) (n : Nat) :
    h.deallocate (some b) n =
      some { h with blocks := h.blocks.set b { blk with live := false }
                    trace := h.trace ++ [Event.deallocate (some b) n] } := by
  simp [Heap.deallocate, hb, hl]

theorem Heap.copy_elements_spec {h : Heap T} {d m : Nat} (hdm : d ≠ m) {bd old : Block T}
    (hd : h.blocks[d]? = some bd) (hdl : bd.live = true) (hm : h.blocks[m]? = some old) :
    ∀ (n i : Nat) (bm : Block T), bm.live = true → i + n ≤ bm.cells.length →
      (∀ j, i ≤ j → j < i + n → ∃ x, bd.cells[j]? = some (some x)) →
      ∃ cells, Heap.copy_elements (some d) (some m) i n (h.put m bm)
                = some (h.put m { bm with cells := cells }) ∧
        cells.length = bm.cells.length ∧
        (∀ j, i ≤ j → j < i + n → cells[j]? = bd.cells[j]?) ∧
        (∀ j, (j < i ∨ i + n ≤ j) → cells[j]? = bm.cells[j]?) := by
  intro n
  induction n with
  | zero =>
    intro i bm _ _ _
    exact ⟨bm.cells, rfl, rfl, fun j h1 h2 => absurd h2 (by omega), fun _ _ => rfl⟩
  | succ n ih =>
    intro i bm hl hlen hsrc
    obtain ⟨x, hx⟩ := hsrc i (Nat.le_refl i) (by omega)
    have hd' : (h.put m bm).blocks[d]? = some bd := by
      rw [Heap.put_blocks_other bm hdm]; exact hd
    have hm' : (h.put m bm).blocks[m]? = some bm := Heap.put_blocks_same bm hm
    have hload : (h.put m bm).load (some d) i = some x := by
      rw [Heap.load_of hd' hdl, hx]; rfl
    have hcons := Heap.construct_of hm' hl (i := i) (by omega) x
    rw [Heap.put_put] at hcons
    obtain ⟨cells, hrun, hlen', hin, hout⟩ :=
      ih (i + 1) { bm with cells := bm.cells.set i (some x) } hl
        (by simp only [List.length_set]; omega)
        (fun j h1 h2 => hsrc j (by omega) (by omega))
    refine ⟨cells, ?_, ?_, ?_, ?_⟩
    · simp only [Heap.copy_elements, hload, hcons]
      exact hrun
    · simpa using hlen'
    · intro j h1 h2
      rcases Nat.eq_or_lt_of_le h1 with heq | hlt
      · subst heq
        rw [hout i (Or.inl (Nat.lt_succ_self i)), hx]
        simp [List.getElem?_set]
        omega
      · exact hin j hlt (by omega)
    · intro j hj
      rw [hout j (by omega)]
      have : i ≠ j := by omega
      simp [List.getElem?_set, this]

theorem Heap.destroy_elements_spec {h : Heap T} {d : Nat} {old : Block T}
    (hd : h.blocks[d]? = some old) :
    ∀ (n i : Nat) (bd : Block T), bd.live = true →
      (∀ j, i ≤ j → j < i + n → ∃ x, bd.cells[j]? = some (some x)) →
      ∃ cells, Heap.destroy_elements (some d) i n (h.put d bd)
                = some (h.put d { bd with cells := cells }) ∧
        cells.length = bd.cells.length ∧
        (∀ j, i ≤ j → j < i + n → cells[j]? = some none) ∧
        (∀ j, (j < i ∨ i + n ≤ j) → cells[j]? = bd.cells[j]?) := by
  intro n
  induction n with
  | zero =>
    intro i bd _ _
    exact ⟨bd.cells, rfl, rfl, fun j h1 h2 => absurd h2 (by omega), fun _ _ => rfl⟩
  | succ n ih =>
    intro i bd hl hsrc
    obtain ⟨x, hx⟩ := hsrc i (Nat.le_refl i) (by omega)
    have hilt : i < bd.cells.length := by
      rcases Nat.lt_or_ge i bd.cells.length with hlt | hge
      · exact hlt
      · rw [List.getElem?_eq_none hge] at hx; cases hx
    have hd' : (h.put d bd).blocks[d]? = some bd := Heap.put_blocks_same bd hd
    have hdes := Heap.destroy_of hd' hl hx
    rw [Heap.put_put] at hdes
    obtain ⟨cells, hrun, hlen', hin, hout⟩ :=
      ih (i + 1) { bd with cells := bd.cells.set i none } hl
        (fun j h1 h2 => by
          obtain ⟨y, hy⟩ := hsrc j (by omega) (by omega)
          have : i ≠ j := by omega
          exact ⟨y, by simp [List.getElem?_set, this, hy]⟩)
    refine ⟨cells, ?_, ?_, ?_, ?_⟩
    · simp only [Heap.destroy_elements, hdes]
      exact hrun
    · simpa using hlen'
    · intro j h1 h2
      rcases Nat.eq_or_lt_of_le h1 with heq | hlt
      · subst heq
        rw [hout i (Or.inl (Nat.lt_succ_self i))]
        simp [List.getElem?_set, hilt]
      · exact hin j hlt (by omega)
    · intro j hj
      rw [hout j (by omega)]
      have : i ≠ j := by omega
      simp [List.getElem?_set, this]

theorem Heap.fill_elements_spec {h : Heap T} {d : Nat} {old : Block T}
    (hd : h.blocks[d]? = some old) (item : T) :
    ∀ (n i : Nat) (bd : Block T), bd.live = true → i + n ≤ bd.cells.length →
      ∃ cells, Heap.fill_elements (some d) item i n (h.put d bd)
                = some (h.put d { bd with cells := cells }) ∧
        cells.length = bd.cells.length ∧
        (∀ j, i ≤ j → j < i + n → cells[j]? = some (some item)) ∧
        (∀ j, (j < i ∨ i + n ≤ j) → cells[j]? = bd.cells[j]?) := by
  intro n
  induction n with
  | zero =>
    intro i bd _ _
    exact ⟨bd.cells, rfl, rfl, fun j h1 h2 => absurd h2 (by omega), fun _ _ => rfl⟩
  | succ n ih =>
    intro i bd hl hlen
    have hd' : (h.put d bd).blocks[d]? = some bd := Heap.put_blocks_same bd hd
    have hcons := Heap.construct_of hd' hl (i := i) (by omega) item
    rw [Heap.put_put] at hcons
    obtain ⟨cells, hrun, hlen', hin, hout⟩ :=
      ih (i + 1) { bd with cells := bd.cells.set i (some item) } hl
        (by simp only [List.length_set]; omega)
    refine ⟨cells, ?_, ?_, ?_, ?_⟩
    · simp only [Heap.fill_elements, hcons]
      exact hrun
    · simpa using hlen'
    · intro j h1 h2
      rcases Nat.eq_or_lt_of_le h1 with heq | hlt
      · subst heq
        rw [hout i (Or.inl (Nat.lt_succ_self i))]
        simp [List.getElem?_set]
        omega
      · exact hin j hlt (by omega)
    · intro j hj
      rw [hout j (by omega)]
      have : i ≠ j := by omega
      simp [List.getElem?_set, this]

theorem Heap.allocate_of {h : Heap T} {n : Nat} (hn : n ≤ h.limit) :
    h.allocate n =
      some ({ h with
              blocks := h.blocks ++ [{ cells := List.replicate n none, live := true }]
              trace := h.trace ++ [Event.allocate h.blocks.length n] },
            h.blocks.length) := by
  simp [Heap.allocate, hn]

theorem getElem?_some_lt {α : Type} {l : List α} {i : Nat} {a : α} (h : l[i]? = some a) :
    i < l.length := by
  rcases Nat.lt_or_ge i l.length with hlt | hge
  · exact hlt
  · rw [List.getElem?_eq_none hge] at h; cases h

theorem reserve_holds {s : State T} {es : List T} (hs : Holds s es) {n : Nat}
    (hn0 : n ≠ 0) (hsz : es.length ≤ n) (hlim : n ≤ s.heap.limit) (hmax : n ≤ SIZE_MAX) :
    ∃ s', reserve s n = .ok () s' ∧ s'.self.size_ = s.self.size_ ∧ s'.self.capacity_ = n ∧
      s'.self.data_ = some s.heap.blocks.length ∧
      s'.heap.limit = s.heap.limit ∧ Holds s' es := by
  obtain ⟨hsize, hcap, _, hdata⟩ := hs
  cases hd : s.self.data_ with
  | none =>
    refine ⟨{ heap := { s.heap with
                blocks := s.heap.blocks ++ [{ cells := List.replicate n none, live := true }]
                trace := s.heap.trace ++ [Event.allocate s.heap.blocks.length n] },
              self := { s.self with data_ := some s.heap.blocks.length, capacity_ := n } },
      ?_, rfl, rfl, rfl, rfl, ?_⟩
    · simp only [reserve, hn0, if_false, Heap.allocate_of hlim, hd]
    · refine ⟨hsize, by simp only; omega, hmax, ?_⟩
      simp only [hd] at hdata
      refine ⟨_, List.getElem?_concat_length _ _, rfl, by simp, ?_⟩
      intro i hi
      omega
  | some d =>
    simp only [hd] at hdata
    obtain ⟨bd, hbd, hlive, hlen, hcells⟩ := hdata
    have hdlt : d < s.heap.blocks.length := getElem?_some_lt hbd
    have hne : d ≠ s.heap.blocks.length := Nat.ne_of_lt hdlt
    -- the memory after `allocate`
    generalize hh1 : ({ s.heap with
        blocks := s.heap.blocks ++ [{ cells := List.replicate n none, live := true }]
        trace := s.heap.trace ++ [Event.allocate s.heap.blocks.length n] } : Heap T) = h1
    have h1d : h1.blocks[d]? = some bd := by
      rw [← hh1]; simp only; rw [List.getElem?_append_left hdlt]; exact hbd
    have h1m : h1.blocks[s.heap.blocks.length]? =
        some { cells := List.replicate n none, live := true } := by
      rw [← hh1]; exact List.getElem?_concat_length _ _
    have hsrc : ∀ j, 0 ≤ j → j < 0 + s.self.size_ → ∃ x, bd.cells[j]? = some (some x) := by
      intro j _ hj
      have hj' : j < es.length := by omega
      refine ⟨es[j], ?_⟩
      rw [hcells j hj', List.getElem?_eq_getElem hj']
    obtain ⟨c1, hcopy, hc1len, hc1in, -⟩ :=
      Heap.copy_elements_spec hne h1d hlive h1m s.self.size_ 0
        { cells := List.replicate n none, live := true } rfl
        (by simp only [List.length_replicate]; omega) hsrc
    rw [Heap.put_self h1m] at hcopy
    generalize hh2 : h1.put s.heap.blocks.length { cells := c1, live := true } = h2 at hcopy
    have h2d : h2.blocks[d]? = some bd := by
      rw [← hh2, Heap.put_blocks_other _ hne]; exact h1d
    obtain ⟨c2, hdes, -, -, -⟩ :=
      Heap.destroy_elements_spec h2d s.self.size_ 0 bd hlive hsrc
    rw [Heap.put_self h2d] at hdes
    generalize hh3 : h2.put d { bd with cells := c2 } = h3 at hdes
    have h3d : h3.blocks[d]? = some { bd with cells := c2 } := by
      rw [← hh3]; exact Heap.put_blocks_same _ h2d
    have h3m : h3.blocks[s.heap.blocks.length]? = some { cells := c1, live := true } := by
      rw [← hh3, Heap.put_blocks_other _ (Ne.symm hne), ← hh2]
      exact Heap.put_blocks_same _ h1m
    have hdea := Heap.deallocate_of h3d hlive s.self.capacity_
    refine ⟨{ heap := { h3 with
                blocks := h3.blocks.set d { cells := c2, live := false }
                trace := h3.trace ++ [Event.deallocate (some d) s.self.capacity_] },
              self := { s.self with data_ := some s.heap.blocks.length, capacity_ := n } },
      ?_, rfl, rfl, rfl, ?_, ?_⟩
    · simp only [reserve, hn0, if_false, Heap.allocate_of hlim, hd, hh1, hcopy, hdes, hdea]
    · simp only [← hh3, ← hh2, ← hh1, Heap.put]
    · refine ⟨hsize, by simp only; omega, hmax, ?_⟩
      simp only
      refine ⟨{ cells := c1, live := true }, ?_, rfl, ?_, ?_⟩
      · rw [List.getElem?_set_ne hne]; exact h3m
      · simpa using hc1len
      · intro i hi
        rw [hc1in i (Nat.zero_le i) (by omega)]
        exact hcells i hi

theorem SIZE_MAX_eq : SIZE_MAX = 18446744073709551615 := by decide

theorem wrap_of_le {n : Nat} (h : n ≤ SIZE_MAX) : wrap n = n :=
  Nat.mod_eq_of_lt (Nat.lt_succ_of_le h)

theorem at_holds {s : State T} {es : List T} (hs : Holds s es) {i : Nat} (hi : i < es.length) :
    «at» s i = .ok es[i] s := by
  obtain ⟨hsize, hcap, _, hdata⟩ := hs
  cases hd : s.self.data_ with
  | none =>
    simp only [hd] at hdata
    omega
  | some d =>
    simp only [hd] at hdata
    obtain ⟨bd, hbd, hlive, _, hcells⟩ := hdata
    have hnot : ¬ i ≥ s.self.size_ := by omega
    simp only [«at», hnot, if_false, hd, Heap.load_of hbd hlive, hcells i hi,
      List.getElem?_eq_getElem hi, Option.join]
    rfl

theorem at_out_of_range (s : State T) (i : Nat) :
    «at» s i = .threw .out_of_range s ↔ s.self.size_ ≤ i := by
  unfold «at»
  by_cases h : i ≥ s.self.size_
  · simp [h]
  · simp only [h, if_false]
    constructor
    · intro hc
      cases hl : s.heap.load s.self.data_ i <;> rw [hl] at hc <;> cases hc
    · intro hc
      exact hc.elim

theorem reserve_zero (s : State T) : reserve s 0 = .ok () s := by
  simp [reserve]

theorem expand_request_eq {c : Nat} (hlt : c < SIZE_MAX / 3) :
    (expand_request c).2 = 3 * (if c = 0 then 1 else c) ∧
      (expand_request c).1 = (if c = 0 then 1 else c) := by
  rw [SIZE_MAX_eq] at hlt
  simp only [expand_request, capacity_increase_factor, SIZE_MAX_eq]
  split_ifs with h0 h1 h1
  · omega
  · simp [wrap, SIZE_MAX_eq]
  · omega
  · rw [wrap_of_le (by rw [SIZE_MAX_eq]; omega)]
    exact ⟨by omega, rfl⟩

theorem construct_back_holds {s : State T} {es : List T} (hs : Holds s es)
    (hroom : s.self.size_ < s.self.capacity_) (item : T) :
    ∃ s', construct_back s item = .ok () s' ∧ s'.self.size_ = s.self.size_ + 1 ∧
      s'.self.capacity_ = s.self.capacity_ ∧ s'.heap.limit = s.heap.limit ∧
      Holds s' (es ++ [item]) := by
  obtain ⟨hsize, hcap, hmax, hdata⟩ := hs
  cases hd : s.self.data_ with
  | none =>
    simp only [hd] at hdata
    omega
  | some d =>
    simp only [hd] at hdata
    obtain ⟨bd, hbd, hlive, hlen, hcells⟩ := hdata
    have hw : wrap (s.self.size_ + 1) = s.self.size_ + 1 := wrap_of_le (by omega)
    refine ⟨{ heap := s.heap.put d { bd with cells := bd.cells.set s.self.size_ (some item) },
              self := { s.self with size_ := s.self.size_ + 1 } }, ?_, rfl, rfl, rfl, ?_⟩
    · simp only [construct_back, hd, Heap.construct_of hbd hlive (i := s.self.size_) (by omega),
        hw]
    · refine ⟨by simp [hsize], by simp only; omega, hmax, ?_⟩
      simp only [hd]
      refine ⟨_, Heap.put_blocks_same _ hbd, hlive, by simpa using hlen, ?_⟩
      intro i hi
      simp only [List.length_append, List.length_singleton] at hi
      rcases Nat.lt_or_ge i es.length with hlt | hge
      · have hne : s.self.size_ ≠ i := by omega
        simp only [List.getElem?_set, hne, if_false]
        rw [hcells i hlt, List.getElem?_append_left hlt]
      · have heq : i = es.length := by omega
        subst heq
        simp [List.getElem?_set, hsize]
        omega

theorem emplace_back_eq_push_back (s : State T) (item : T) :
    emplace_back s item = push_back s item := rfl

theorem resize_fill_holds {s : State T} {es : List T} (hs : Holds s es) {n : Nat}
    (hsz : es.length ≤ n) (hlim : n ≤ s.heap.limit) (hmax : n ≤ SIZE_MAX) (item : T) :
    ∃ s', resize_fill s n item = .ok () s' ∧ s'.self.size_ = n ∧ n ≤ s'.self.capacity_ ∧
      (n ≠ 0 → s'.self.capacity_ = n) ∧ s'.heap.limit = s.heap.limit ∧
      Holds s' (es ++ List.replicate (n - es.length) item) := by
  have hsize : s.self.size_ = es.length := hs.1
  have hnot : ¬ s.self.size_ > n := by omega
  rcases Nat.eq_zero_or_pos n with h0 | hpos
  · subst h0
    have hnil : es = [] := List.length_eq_zero.mp (by omega)
    subst hnil
    have hs0 : s.self.size_ = 0 := hsize
    refine ⟨{ heap := s.heap, self := { s.self with size_ := 0 } }, ?_, rfl, Nat.zero_le _,
      fun h => absurd rfl h, rfl, ?_⟩
    · simp [resize_fill, reserve, hs0, Heap.fill_elements]
    · obtain ⟨-, -, h3, h4⟩ := hs
      exact ⟨rfl, Nat.zero_le _, h3, h4⟩
  · obtain ⟨s1, h1, hsz1, hcap1, hdata1, hlim1, hs1⟩ :=
      reserve_holds hs (Nat.pos_iff_ne_zero.mp hpos) hsz hlim hmax
    obtain ⟨-, -, -, hblk⟩ := hs1
    simp only [hdata1] at hblk
    obtain ⟨bd, hbd, hlive, hlen, hcells⟩ := hblk
    obtain ⟨c, hfill, hclen, hcin, hcout⟩ :=
      Heap.fill_elements_spec hbd item (n - s1.self.size_) s1.self.size_ bd hlive (by omega)
    rw [Heap.put_self hbd] at hfill
    refine ⟨{ heap := s1.heap.put s.heap.blocks.length { bd with cells := c },
              self := { s1.self with size_ := n } }, ?_, rfl, by simp only; omega,
      fun _ => hcap1, by simp only [Heap.put_limit]; exact hlim1, ?_⟩
    · simp only [resize_fill, hnot, if_false, h1, hdata1, hfill]
    · refine ⟨by simp only [List.length_append, List.length_replicate]; omega,
        by simp only; omega, by simp only; omega, ?_⟩
      simp only [hdata1]
      refine ⟨_, Heap.put_blocks_same _ hbd, hlive, by simp only; omega, ?_⟩
      intro i hi
      simp only [List.length_append, List.length_replicate] at hi
      rcases Nat.lt_or_ge i es.length with hlt | hge
      · rw [hcout i (Or.inl (by omega)), hcells i hlt, List.getElem?_append_left hlt]
      · rw [hcin i (by omega) (by omega), List.getElem?_append_right hge,
          List.getElem?_replicate]
        have : i - es.length < n - es.length := by omega
        simp [this]

theorem shrink_to_fit_holds {s : State T} {es : List T} (hs : Holds s es)
    (hne : 0 < s.self.size_) (hlim : s.self.size_ ≤ s.heap.limit) :
    ∃ s', shrink_to_fit s = .ok () s' ∧ s'.self.size_ = s.self.size_ ∧
      s'.self.capacity_ = s.self.size_ ∧ s'.heap.limit = s.heap.limit ∧ Holds s' es := by
  have hsize : s.self.size_ = es.length := hs.1
  have hcap : s.self.size_ ≤ s.self.capacity_ := hs.2.1
  have hmax : s.self.capacity_ ≤ SIZE_MAX := hs.2.2.1
  obtain ⟨s1, h1, hsz1, hcap1, -, hlim1, hs1⟩ :=
    reserve_holds hs (n := s.self.size_) (by omega) (by omega) hlim (by omega)
  exact ⟨s1, h1, hsz1, hcap1, hlim1, hs1⟩

theorem fresh_holds (h : Heap T) : Holds { heap := h, self := Vec.fresh } [] :=
  ⟨rfl, Nat.le_refl _, Nat.zero_le _, rfl⟩

theorem Heap.allocate_limit {h h1 : Heap T} {n m : Nat}
    (hc : h.allocate n = some (h1, m)) : h1.limit = h.limit ∧ n ≤ h.limit := by
  unfold Heap.allocate at hc
  split at hc
  · rename_i hle
    cases hc
    exact ⟨rfl, hle⟩
  · cases hc

theorem Heap.construct_limit {h h1 : Heap T} {p : Option Nat} {i : Nat} {x : T}
    (hc : h.construct p i x = some h1) : h1.limit = h.limit := by
  unfold Heap.construct at hc
  split at hc
  · cases hc
  · split at hc
    · cases hc
    · split at hc
      · cases hc; rfl
      · cases hc

theorem Heap.destroy_limit {h h1 : Heap T} {p : Option Nat} {i : Nat}
    (hc : h.destroy p i = some h1) : h1.limit = h.limit := by
  unfold Heap.destroy at hc
  split at hc
  · cases hc
  · split at hc
    · cases hc
    · split at hc
      · cases hc; rfl
      · cases hc

theorem Heap.deallocate_limit {h h1 : Heap T} {p : Option Nat} {n : Nat}
    (hc : h.deallocate p n = some h1) : h1.limit = h.limit := by
  unfold Heap.deallocate at hc
  split at hc
  · cases hc; rfl
  · split at hc
    · cases hc
    · split at hc
      · cases hc; rfl
      · cases hc

theorem Heap.copy_elements_limit (p q : Option Nat) :
    ∀ (n i : Nat) (h h1 : Heap T), Heap.copy_elements p q i n h = some h1 →
      h1.limit = h.limit := by
  intro n
  induction n with
  | zero =>
    intro i h h1 hc
    simp only [Heap.copy_elements, Option.some.injEq] at hc
    rw [hc]
  | succ n ih =>
    intro i h h1 hc
    simp only [Heap.copy_elements] at hc
    split at hc
    · cases hc
    · split at hc
      · cases hc
      · rename_i h2 hcons
        rw [ih _ _ _ hc, Heap.construct_limit hcons]

theorem Heap.copy_to_front_limit (p q : Option Nat) :
    ∀ (n i : Nat) (h h1 : Heap T), Heap.copy_to_front p q i n h = some h1 →
      h1.limit = h.limit := by
  intro n
  induction n with
  | zero =>
    intro i h h1 hc
    simp only [Heap.copy_to_front, Option.some.injEq] at hc
    rw [hc]
  | succ n ih =>
    intro i h h1 hc
    simp only [Heap.copy_to_front] at hc
    split at hc
    · cases hc
    · split at hc
      · cases hc
      · rename_i h2 hcons
        rw [ih _ _ _ hc, Heap.construct_limit hcons]

theorem Heap.destroy_elements_limit (p : Option Nat) :
    ∀ (n i : Nat) (h h1 : Heap T), Heap.destroy_elements p i n h = some h1 →
      h1.limit = h.limit := by
  intro n
  induction n with
  | zero =>
    intro i h h1 hc
    simp only [Heap.destroy_elements, Option.some.injEq] at hc
    rw [hc]
  | succ n ih =>
    intro i h h1 hc
    simp only [Heap.destroy_elements] at hc
    split at hc
    · cases hc
    · rename_i h2 hdes
      rw [ih _ _ _ hc, Heap.destroy_limit hdes]

theorem Heap.fill_elements_limit (p : Option Nat) (item : T) :
    ∀ (n i : Nat) (h h1 : Heap T), Heap.fill_elements p item i n h = some h1 →
      h1.limit = h.limit := by
  intro n
  induction n with
  | zero =>
    intro i h h1 hc
    simp only [Heap.fill_elements, Option.some.injEq] at hc
    rw [hc]
  | succ n ih =>
    intro i h h1 hc
    simp only [Heap.fill_elements] at hc
    split at hc
    · cases hc
    · rename_i h2 hcons
      rw [ih _ _ _ hc, Heap.construct_limit hcons]

theorem Outcome.keeps_of_ok {σ α : Type} {o : Outcome σ α} {P : σ → Prop} {a : α} {s : σ}
    (hk : o.Keeps P) (h : o = .ok a s) : P s := by
  rw [h] at hk
  exact hk

theorem Outcome.keeps_of_threw {σ α : Type} {o : Outcome σ α} {P : σ → Prop} {e : Exception}
    {s : σ} (hk : o.Keeps P) (h : o = .threw e s) : P s := by
  rw [h] at hk
  exact hk

theorem reserve_keeps_limit (s : State T) (n : Nat) :
    (reserve s n).Keeps fun s' =>
      s'.heap.limit = s.heap.limit ∧
      (s'.self.capacity_ = s.self.capacity_ ∨ s'.self.capacity_ ≤ s.heap.limit) := by
  unfold reserve
  split
  · exact ⟨rfl, Or.inl rfl⟩
  · split
    · exact ⟨rfl, Or.inl rfl⟩
    · rename_i h1 memory halloc
      obtain ⟨hl1, hn⟩ := Heap.allocate_limit halloc
      split
      · exact ⟨hl1, Or.inr hn⟩
      · split
        · trivial
        · rename_i h2 hcopy
          split
          · trivial
          · rename_i h3 hdes
            split
            · trivial
            · rename_i h4 hdea
              refine ⟨?_, Or.inr hn⟩
              show h4.limit = s.heap.limit
              rw [Heap.deallocate_limit hdea, Heap.destroy_elements_limit _ _ _ _ _ hdes,
                Heap.copy_elements_limit _ _ _ _ _ _ hcopy, hl1]

theorem reserve_keeps_granted {s : State T} (hg : Granted s) (n : Nat) :
    (reserve s n).Keeps Granted := by
  have h := reserve_keeps_limit s n
  cases hr : reserve s n with
  | ok u s' =>
    obtain ⟨hl, hc⟩ := Outcome.keeps_of_ok h hr
    show s'.self.capacity_ ≤ s'.heap.limit ∧ s'.heap.limit < SIZE_MAX / 3
    have h1 : s.self.capacity_ ≤ s.heap.limit := hg.1
    have h2 : s.heap.limit < SIZE_MAX / 3 := hg.2
    omega
  | threw e s' =>
    obtain ⟨hl, hc⟩ := Outcome.keeps_of_threw h hr
    show s'.self.capacity_ ≤ s'.heap.limit ∧ s'.heap.limit < SIZE_MAX / 3
    have h1 : s.self.capacity_ ≤ s.heap.limit := hg.1
    have h2 : s.heap.limit < SIZE_MAX / 3 := hg.2
    omega
  | ub => trivial

theorem shrink_to_fit_keeps_granted {s : State T} (hg : Granted s) :
    (shrink_to_fit s).Keeps Granted :=
  reserve_keeps_granted hg _

theorem try_expand_capacity_keeps_granted {s : State T} (hg : Granted s) :
    (try_expand_capacity s).Keeps Granted := by
  unfold try_expand_capacity
  split
  · exact hg
  · exact reserve_keeps_granted hg _

theorem construct_back_keeps_granted {s : State T} (hg : Granted s) (item : T) :
    (construct_back s item).Keeps Granted := by
  unfold construct_back
  split
  · trivial
  · rename_i h1 hcons
    show s.self.capacity_ ≤ h1.limit ∧ h1.limit < SIZE_MAX / 3
    rw [Heap.construct_limit hcons]
    exact hg

theorem push_back_keeps_granted {s : State T} (hg : Granted s) (item : T) :
    (push_back s item).Keeps Granted := by
  have h := try_expand_capacity_keeps_granted hg
  unfold push_back
  cases htry : try_expand_capacity s with
  | ok u s1 => exact construct_back_keeps_granted (Outcome.keeps_of_ok h htry) item
  | threw e s1 =>
    show Granted s1
    exact Outcome.keeps_of_threw h htry
  | ub => trivial

theorem emplace_back_keeps_granted {s : State T} (hg : Granted s) (item : T) :
    (emplace_back s item).Keeps Granted :=
  push_back_keeps_granted hg item

theorem pop_back_keeps_granted {s : State T} (hg : Granted s) :
    (pop_back s).Keeps Granted := by
  have key : ∀ size : Nat,
      (match s.heap.destroy s.self.data_ size with
        | none => (Outcome.ub : Outcome (State T) Unit)
        | some h1 => .ok () { heap := h1, self := { s.self with size_ := size } }).Keeps
        Granted := by
    intro size
    cases hdes : s.heap.destroy s.self.data_ size with
    | none => trivial
    | some h1 =>
      show s.self.capacity_ ≤ h1.limit ∧ h1.limit < SIZE_MAX / 3
      rw [Heap.destroy_limit hdes]
      exact hg
  exact key _

theorem pop_all_keeps_granted : ∀ (fuel : Nat) {s : State T}, Granted s →
    (pop_all fuel s).Keeps Granted := by
  intro fuel
  induction fuel with
  | zero =>
    intro s hg
    exact hg
  | succ fuel ih =>
    intro s hg
    have h := pop_back_keeps_granted hg
    unfold pop_all
    split
    · exact hg
    · cases hpop : pop_back s with
      | ok u s1 => exact ih (Outcome.keeps_of_ok h hpop)
      | threw e s1 =>
        show Granted s1
        exact Outcome.keeps_of_threw h hpop
      | ub => trivial

theorem clear_keeps_granted {s : State T} (hg : Granted s) : (clear s).Keeps Granted := by
  have h := pop_all_keeps_granted s.self.size_ hg
  unfold clear
  cases hpop : pop_all s.self.size_ s with
  | ok u s1 =>
    have hg1 : Granted s1 := Outcome.keeps_of_ok h hpop
    cases hdea : s1.heap.deallocate s1.self.data_ s1.self.capacity_ with
    | none =>
      simp only [hdea]
      trivial
    | some h1 =>
      simp only [hdea]
      show s1.self.capacity_ ≤ h1.limit ∧ h1.limit < SIZE_MAX / 3
      rw [Heap.deallocate_limit hdea]
      exact hg1
  | threw e s1 =>
    show Granted s1
    exact Outcome.keeps_of_threw h hpop
  | ub => trivial

theorem resize_fill_keeps_granted {s : State T} (hg : Granted s) (n : Nat) (item : T) :
    (resize_fill s n item).Keeps Granted := by
  have h := reserve_keeps_granted hg n
  unfold resize_fill
  split
  · exact hg
  · cases hres : reserve s n with
    | ok u s1 =>
      have hg1 : Granted s1 := Outcome.keeps_of_ok h hres
      cases hfill : Heap.fill_elements s1.self.data_ item s1.self.size_
          (n - s1.self.size_) s1.heap with
      | none =>
        simp only [hfill]
        trivial
      | some h1 =>
        simp only [hfill]
        show s1.self.capacity_ ≤ h1.limit ∧ h1.limit < SIZE_MAX / 3
        rw [Heap.fill_elements_limit _ _ _ _ _ _ hfill]
        exact hg1
    | threw e s1 =>
      show Granted s1
      exact Outcome.keeps_of_threw h hres
    | ub => trivial

theorem fresh_granted {h : Heap T} (hreal : h.Realistic) :
    Granted { heap := h, self := Vec.fresh } :=
  ⟨Nat.zero_le _, hreal⟩

theorem vector_with_capacity_keeps_granted {h : Heap T} (hreal : h.Realistic) (c : Nat) :
    (vector_with_capacity h c).Keeps Granted :=
  reserve_keeps_granted (fresh_granted hreal) c

theorem copy_from_keeps_granted {s : State2 T} (hd : Granted s.dest) (ho : Granted s.source) :
    (copy_from s).Keeps fun s' => Granted s'.dest ∧ Granted s'.source := by
  unfold copy_from
  split
  · exact ⟨hd, ho⟩
  · rename_i h1 memory halloc
    obtain ⟨hl1, hn⟩ := Heap.allocate_limit halloc
    split
    · trivial
    · rename_i h2 hcopy
      have hl2 : h2.limit = s.heap.limit := by
        rw [Heap.copy_to_front_limit _ _ _ _ _ _ hcopy, hl1]
      simp only
      split
      · trivial
      · rename_i h4 hrel
        have hl4 : h4.limit = s.heap.limit := by
          split at hrel
          · cases hrel
            exact hl2
          · split at hrel
            · cases hrel
            · rename_i h3 hdes
              rw [Heap.deallocate_limit hrel, Heap.destroy_elements_limit _ _ _ _ _ hdes, hl2]
        have h2' : s.heap.limit < SIZE_MAX / 3 := ho.2
        have h1' : s.other.capacity_ ≤ s.heap.limit := ho.1
        refine ⟨⟨?_, ?_⟩, ⟨?_, ?_⟩⟩
        · show s.other.capacity_ ≤ h4.limit
          omega
        · show h4.limit < SIZE_MAX / 3
          omega
        · show s.other.capacity_ ≤ h4.limit
          omega
        · show h4.limit < SIZE_MAX / 3
          omega

theorem push_back_all_keeps_granted (vs : List T) : ∀ {s : State T}, Granted s →
    (push_back_all s vs).Keeps Granted := by
  induction vs with
  | nil =>
    intro s hg
    exact hg
  | cons x xs ih =>
    intro s hg
    have h := push_back_keeps_granted hg x
    unfold push_back_all
    cases hp : push_back s x with
    | ok u s1 => exact ih (Outcome.keeps_of_ok h hp)
    | threw e s1 =>
      show Granted s1
      exact Outcome.keeps_of_threw h hp
    | ub => trivial

/-- The constructors on a real allocator end in a state that is `Granted`, and
every member function keeps it so, whether it returns or throws. -/
theorem granted_kept [Inhabited T] (s : State T) (hg : Granted s) :
    (∀ (h : Heap T) (c : Nat), h.Realistic → (vector_with_capacity h c).Keeps Granted) ∧
    (∀ h : Heap T, h.Realistic → (vector_default h).Keeps Granted) ∧
    ((copy_construct s.heap s.self).Keeps fun s' => Granted s'.dest ∧ Granted s'.source) ∧
    (∀ n, (reserve s n).Keeps Granted) ∧
    (shrink_to_fit s).Keeps Granted ∧
    (∀ n item, (resize_fill s n item).Keeps Granted) ∧
    (∀ n, (resize s n).Keeps Granted) ∧
    (∀ item, (push_back s item).Keeps Granted ∧ (emplace_back s item).Keeps Granted) ∧
    (pop_back s).Keeps Granted ∧
    (clear s).Keeps Granted ∧
    (∀ other, Granted { heap := s.heap, self := other } →
      (copy_assign { heap := s.heap, self := s.self, other := other }).Keeps
        fun s' => Granted s'.dest ∧ Granted s'.source) ∧
    (copy_assign_self s).Keeps Granted :=
  ⟨fun _ c hr => vector_with_capacity_keeps_granted hr c,
    fun _ hr => vector_with_capacity_keeps_granted hr 1,
    copy_from_keeps_granted (s := { heap := s.heap, self := Vec.fresh, other := s.self })
      (fresh_granted hg.2) hg,
    fun n => reserve_keeps_granted hg n,
    shrink_to_fit_keeps_granted hg,
    fun n item => resize_fill_keeps_granted hg n item,
    fun n => resize_fill_keeps_granted hg n default,
    fun item => ⟨push_back_keeps_granted hg item, push_back_keeps_granted hg item⟩,
    pop_back_keeps_granted hg,
    clear_keeps_granted hg,
    fun other ho =>
      copy_from_keeps_granted (s := { heap := s.heap, self := s.self, other := other }) hg ho,
    hg⟩

theorem empty_realistic : (Heap.empty T).Realistic := by
  show SIZE_MAX / 8 < SIZE_MAX / 3
  decide

theorem default_vector_holds : Holds default_vector [] :=
  ⟨rfl, by decide, by decide, _, rfl, rfl, rfl, by decide⟩

theorem one_element_holds : Holds one_element [10] :=
  ⟨rfl, by decide, by decide, _, rfl, rfl, rfl, by decide⟩

theorem two_elements_holds : Holds two_elements [10, 20] :=
  ⟨rfl, by decide, by decide, _, rfl, rfl, rfl, by decide⟩

/-! ## C1: appending -/

/-- C2 (the code at the failing input): `two_elements` is the vector `[10, 20]`
built by two `push_back` calls; its copy, by the copy constructor or by copy
assignment to a default-constructed vector, has size 2, but `at(0)` is `20`
and `at(1)` refers to a slot in which nothing was constructed. -/
theorem copy_puts_every_element_in_slot_zero :
    push_back_all default_vector [10, 20] = .ok () two_elements ∧
    Holds two_elements [10, 20] ∧
    (∃ s', copy_construct two_elements.heap two_elements.self = .ok () s' ∧
      get_size s'.dest = 2 ∧ «at» s'.dest 0 = .ok 20 s'.dest ∧ «at» s'.dest 1 = .ub) ∧
    (∃ d s', vector_default two_elements.heap = .ok () d ∧
      copy_assign { heap := d.heap, self := d.self, other := two_elements.self } = .ok () s' ∧
      get_size s'.dest = 2 ∧ «at» s'.dest 0 = .ok 20 s'.dest ∧ «at» s'.dest 1 = .ub) := by
  refine ⟨by decide, two_elements_holds, ⟨_, rfl, by decide, by decide, by decide⟩,
    ⟨_, _, rfl, rfl, by decide, by decide, by decide⟩⟩

/-! ## C4: the source of a move -/

/-- C4 (the code at the failing input): `one_element` is the vector `[10]`
built by one `push_back`; `steal_from`, the member the move constructor and
the move assignment are written to call, run on a new vector with that vector
as `other`, leaves the source with `data_ == nullptr` but still
`get_size() == 1` and `get_capacity() == 3`, and the destructor of the source
then destroys an element through the null pointer. -/
theorem moved_from_keeps_size_and_capacity :
    push_back_all default_vector [10] = .ok () one_element ∧
    Holds one_element [10] ∧
    ∃ s', steal_from { heap := one_element.heap, self := Vec.fresh,
                       other := one_element.self } = .ok () s' ∧
      s'.other.data_ = none ∧ get_size s'.source = 1 ∧ get_capacity s'.source = 3 ∧
      destructor s'.source = .ub := by
  refine ⟨by decide, one_element_holds, _, rfl, rfl, rfl, rfl, by decide⟩

/-! ## C5: checked access -/

/-- C5: on every well-formed vector holding `es`, `at(index)` throws
`out_of_range` exactly when `index >= size`, whatever the capacity, and then
in the unchanged state; for `index < size` it returns `es[index]`, again in
the unchanged state.  So `at(size)` throws and, when `size > 0`,
`at(size - 1)` returns the last element. -/
theorem at_checks_index_against_size (s : State T) (es : List T) (hs : Holds s es)
    (index : Nat) :
    ((∃ s', «at» s index = .threw .out_of_range s') ↔ index ≥ get_size s) ∧
    (index ≥ get_size s → «at» s index = .threw .out_of_range s) ∧
    (∀ hi : index < es.length, «at» s index = .ok es[index] s) ∧
    «at» s (get_size s) = .threw .out_of_range s ∧
    (∀ hpos : 0 < es.length, «at» s (get_size s - 1) = .ok es[es.length - 1] s) := by
  have hsize : s.self.size_ = es.length := hs.1
  refine ⟨⟨?_, ?_⟩, ?_, ?_, ?_, ?_⟩
  · rintro ⟨s', hthrew⟩
    by_contra hlt
    rw [get_size, hsize] at hlt
    rw [at_holds hs (i := index) (by omega)] at hthrew
    cases hthrew
  · intro hge
    exact ⟨s, (at_out_of_range s index).mpr hge⟩
  · intro hge
    exact (at_out_of_range s index).mpr hge
  · intro hi
    exact at_holds hs hi
  · exact (at_out_of_range s _).mpr (Nat.le_refl _)
  · intro hpos
    have hlast : get_size s - 1 = es.length - 1 := by rw [get_size, hsize]
    rw [hlast]
    exact at_holds hs (i := es.length - 1) (by omega)

/-- C5, on the vector `[10, 20]` of capacity 9: `at(1)` returns `20`, while
`at(2)`, below the capacity, throws. -/
theorem at_checks_index_against_size_witness :
    Holds two_elements [10, 20] ∧ get_capacity two_elements = 9 ∧
    «at» two_elements 1 = .ok 20 two_elements ∧
    «at» two_elements 2 = .threw .out_of_range two_elements := by
  obtain ⟨-, -, -, hthrow, hlast⟩ :=
    at_checks_index_against_size two_elements [10, 20] two_elements_holds 2
  exact ⟨two_elements_holds, rfl, hlast (by decide), hthrow⟩

/-! ## C6: `size <= capacity` -/

/-- C7 (the code at the failing input): `clear()` on a default-constructed
vector returns with `get_size() == 0` but `get_capacity() == 1` and `data_`
still pointing to the block it has released, so that the destructor, which
calls `clear()` again, releases that block a second time. -/
theorem clear_keeps_capacity_and_pointer :
    vector_default (Heap.empty Nat) = .ok () default_vector ∧
    Holds default_vector [] ∧
    ∃ s', clear default_vector = .ok () s' ∧ get_size s' = 0 ∧ get_capacity s' = 1 ∧
      s'.self.data_ = some 0 ∧ s'.heap.blocks[0]? = some { cells := [none], live := false } ∧
      destructor s' = .ub :=
  ⟨by decide, default_vector_holds, _, rfl, rfl, rfl, rfl, rfl, by decide⟩

/-! ## C8: `shrink_to_fit` -/

/-- C8 (as stated, refuted): on a default-constructed vector, of size 0 and
capacity 1, `shrink_to_fit()` is `reserve(0)` and changes nothing, so the
capacity stays 1 and is not the size. -/
theorem shrink_to_fit_keeps_empty_capacity :
    vector_default (Heap.empty Nat) = .ok () default_vector ∧
    shrink_to_fit default_vector = .ok () default_vector ∧
    get_size default_vector = 0 ∧ get_capacity default_vector = 1 := by
  decide

/-- C8 (amended): on every well-formed vector holding `es`, if the vector is
not empty then `shrink_to_fit()`, the allocator granting `size` slots, returns
with `get_capacity() == get_size()`, the size unchanged and `at(i) == es[i]`
for every `i < size`; if the vector is empty, `shrink_to_fit()` returns
without changing anything. -/
theorem shrink_to_fit_fits (s : State T) (es : List T) (hs : Holds s es) :
    (0 < get_size s → get_size s ≤ s.heap.limit →
      ∃ s', shrink_to_fit s = .ok () s' ∧ get_capacity s' = get_size s' ∧
        get_size s' = get_size s ∧ ∀ i (hi : i < es.length), «at» s' i = .ok es[i] s') ∧
    (get_size s = 0 → shrink_to_fit s = .ok () s) := by
  constructor
  · intro hpos hlim
    obtain ⟨s', h1, h2, h3, -, hs'⟩ := shrink_to_fit_holds hs hpos hlim
    refine ⟨s', h1, ?_, h2, fun i hi => at_holds hs' hi⟩
    show s'.self.capacity_ = s'.self.size_
    rw [h2, h3]
  · intro h0
    have h0' : s.self.size_ = 0 := h0
    rw [shrink_to_fit, h0']
    exact reserve_zero s

/-- C8 (amended), on the vector `[10, 20]` of capacity 9. -/
theorem shrink_to_fit_fits_witness :
    Holds two_elements [10, 20] ∧
    ∃ s', shrink_to_fit two_elements = .ok () s' ∧ get_capacity s' = 2 ∧ get_size s' = 2 ∧
      «at» s' 0 = .ok 10 s' ∧ «at» s' 1 = .ok 20 s' := by
  obtain ⟨s', h1, h2, h3, h4⟩ :=
    (shrink_to_fit_fits two_elements [10, 20] two_elements_holds).1 (by decide) (by decide)
  exact ⟨two_elements_holds, s', h1, h2.trans h3, h3, h4 0 (by decide), h4 1 (by decide)⟩

/-! ## C9: `reserve` -/

/-- C9: on every well-formed vector holding `es`, `reserve(0)` returns
without changing anything, and `reserve(n)` with `n > 0` and `n >= size`, the
allocator granting `n` slots, returns with `get_capacity() == n`,
`get_size() == size` and `at(i) == es[i]` for every `i < size`. -/
theorem reserve_postcondition (s : State T) (es : List T) (hs : Holds s es) (n : Nat) :
    (n = 0 → reserve s n = .ok () s) ∧
    (0 < n → get_size s ≤ n → n ≤ s.heap.limit → n ≤ SIZE_MAX →
      ∃ s', reserve s n = .ok () s' ∧ get_capacity s' = n ∧ get_size s' = get_size s ∧
        ∀ i (hi : i < es.length), «at» s' i = .ok es[i] s') := by
  constructor
  · intro h0
    rw [h0]
    exact reserve_zero s
  · intro hpos hge hlim hmax
    have hsize : s.self.size_ = es.length := hs.1
    obtain ⟨s', h1, h2, h3, -, -, hs'⟩ :=
      reserve_holds hs (Nat.pos_iff_ne_zero.mp hpos) (by rw [← hsize]; exact hge) hlim hmax
    exact ⟨s', h1, h3, h2, fun i hi => at_holds hs' hi⟩

/-- C9, on the vector `[10, 20]` of capacity 9 and `reserve(5)`. -/
theorem reserve_postcondition_witness :
    Holds two_elements [10, 20] ∧
    ∃ s', reserve two_elements 5 = .ok () s' ∧ get_capacity s' = 5 ∧ get_size s' = 2 ∧
      «at» s' 0 = .ok 10 s' ∧ «at» s' 1 = .ok 20 s' := by
  obtain ⟨s', h1, h2, h3, h4⟩ :=
    (reserve_postcondition two_elements [10, 20] two_elements_holds 5).2
      (by decide) (by decide) (by decide) (by decide)
  exact ⟨two_elements_holds, s', h1, h2, h3, h4 0 (by decide), h4 1 (by decide)⟩

/-! ## C10: `resize` -/

/-- C10: on every well-formed vector holding `es`, for every `n >= size`
and every value `item`, the allocator granting `n` slots, `resize(n, item)`
returns with `get_size() == n`, `at(i) == es[i]` for every `i < size`,
`at(i) == item` for every `size <= i < n`, and `get_capacity() >= n`; and
`resize(n)` is `resize(n, T{})`. -/
theorem resize_grows_and_fills [Inhabited T] (s : State T) (es : List T) (hs : Holds s es)
    (n : Nat) (item : T) (hn : get_size s ≤ n) (hlim : n ≤ s.heap.limit)
    (hmax : n ≤ SIZE_MAX) :
    (∃ s', resize_fill s n item = .ok () s' ∧ get_size s' = n ∧
      (∀ i (hi : i < es.length), «at» s' i = .ok es[i] s') ∧
      (∀ i, get_size s ≤ i → i < n → «at» s' i = .ok item s') ∧
      n ≤ get_capacity s') ∧
    resize s n = resize_fill s n default := by
  have hsize : s.self.size_ = es.length := hs.1
  have hn' : es.length ≤ n := by rw [← hsize]; exact hn
  obtain ⟨s', h1, h2, h3, -, -, hs'⟩ := resize_fill_holds hs hn' hlim hmax item
  refine ⟨⟨s', h1, h2, ?_, ?_, h3⟩, rfl⟩
  · intro i hi
    rw [at_holds hs' (i := i) (by simp only [List.length_append, List.length_replicate]; omega)]
    congr 1
    exact List.getElem_append_left hi
  · intro i hlo hhi
    have hlo' : es.length ≤ i := by rw [← hsize]; exact hlo
    rw [at_holds hs' (i := i) (by simp only [List.length_append, List.length_replicate]; omega)]
    congr 1
    rw [List.getElem_append_right hlo']
    simp

/-- C10, on `resize(5, 99)` applied to a default-constructed vector. -/
theorem resize_grows_and_fills_witness :
    Holds default_vector [] ∧
    ∃ s', resize_fill default_vector 5 99 = .ok () s' ∧ get_size s' = 5 ∧
      «at» s' 0 = .ok 99 s' ∧ «at» s' 1 = .ok 99 s' ∧ «at» s' 2 = .ok 99 s' ∧
      «at» s' 3 = .ok 99 s' ∧ «at» s' 4 = .ok 99 s' := by
  obtain ⟨⟨s', h1, h2, -, h4, -⟩, -⟩ :=
    resize_grows_and_fills default_vector [] default_vector_holds 5 99
      (by decide) (by decide) (by decide)
  exact ⟨default_vector_holds, s', h1, h2, h4 0 (by decide) (by decide),
    h4 1 (by decide) (by decide), h4 2 (by decide) (by decide),
    h4 3 (by decide) (by decide), h4 4 (by decide) (by decide)⟩

/-! ## Further lemmas: no-op calls, the allocator trace, growth by powers of 3 -/

theorem resize_fill_below (s : State T) {n : Nat} (hn : n < s.self.size_) (item : T) :
    resize_fill s n item = .ok () s := by
  have hgt : s.self.size_ > n := hn
  simp [resize_fill, hgt]

theorem resize_fill_empty (s : State T) (h0 : s.self.size_ = 0) (item : T) :
    resize_fill s 0 item = .ok () s := by
  obtain ⟨heap, ⟨size_, capacity_, data_⟩⟩ := s
  simp only at h0
  subst h0
  simp [resize_fill, reserve, Heap.fill_elements]

theorem reserve_alloc_fails {s : State T} {n : Nat} (hn0 : n ≠ 0)
    (hfail : s.heap.allocate n = none) : reserve s n = .threw .bad_alloc s := by
  simp [reserve, hn0, hfail]

theorem try_expand_capacity_idle {s : State T} (h : should_increase_capacity s = false) :
    try_expand_capacity s = .ok () s := by
  simp [try_expand_capacity, h]

theorem try_expand_capacity_grows {s : State T} {es : List T} (hs : Holds s es)
    (hlt : s.self.capacity_ < SIZE_MAX / 3) (hdiv : s.self.capacity_ / 3 ≤ s.self.size_)
    (hlim : 3 * (if s.self.capacity_ = 0 then 1 else s.self.capacity_) ≤ s.heap.limit) :
    ∃ s', try_expand_capacity s = .ok () s' ∧ s'.self.size_ = s.self.size_ ∧
      s'.self.capacity_ = 3 * (if s.self.capacity_ = 0 then 1 else s.self.capacity_) ∧
      s'.self.data_ = some s.heap.blocks.length ∧
      s'.heap.limit = s.heap.limit ∧ Holds s' es := by
  have hsize : s.self.size_ = es.length := hs.1
  have hcap : s.self.size_ ≤ s.self.capacity_ := hs.2.1
  have hinc : should_increase_capacity s = true := by
    simp only [should_increase_capacity, capacity_increase_factor, Bool.and_eq_true,
      decide_eq_true_eq]
    exact ⟨hlt, hdiv⟩
  have hreq := (expand_request_eq hlt).1
  have hrun : try_expand_capacity s = reserve s (expand_request s.self.capacity_).2 := by
    simp only [try_expand_capacity, hinc, Bool.not_true]
    rfl
  rw [SIZE_MAX_eq] at hlt
  obtain ⟨s', hres, h1, h2, h3, h4, h5⟩ :=
    reserve_holds hs (n := (expand_request s.self.capacity_).2)
      (by rw [hreq]; split_ifs <;> omega)
      (by rw [hreq]; split_ifs <;> omega)
      (by rw [hreq]; exact hlim)
      (by rw [hreq, SIZE_MAX_eq]; split_ifs <;> omega)
  exact ⟨s', by rw [hrun]; exact hres, h1, by rw [h2, hreq], h3, h4, h5⟩

theorem pow_three_39_lt : 3 ^ 39 < SIZE_MAX / 3 := by decide

theorem pow_three_40_le : 3 ^ 40 ≤ SIZE_MAX := by decide

theorem pow_three_le_of_lt {k : Nat} (h : 3 ^ k < 3 ^ 40) : 3 ^ k ≤ 3 ^ 39 := by
  have hk : k < 40 := by
    by_contra hge
    have := Nat.pow_le_pow_right (show 3 > 0 by decide) (Nat.le_of_not_lt hge)
    omega
  exact Nat.pow_le_pow_right (by decide) (by omega)

theorem push_back_capacity {s : State T} {es : List T} (hs : Holds s es) (item : T)
    (hroom : s.self.size_ < s.self.capacity_ ∨ s.self.capacity_ < SIZE_MAX / 3)
    (halloc : should_increase_capacity s = true →
      3 * (if s.self.capacity_ = 0 then 1 else s.self.capacity_) ≤ s.heap.limit) :
    ∃ s', push_back s item = .ok () s' ∧ s'.heap.limit = s.heap.limit ∧
      Holds s' (es ++ [item]) ∧
      s'.self.capacity_ =
        (if should_increase_capacity s = true then
          3 * (if s.self.capacity_ = 0 then 1 else s.self.capacity_)
        else s.self.capacity_) := by
  have hsize : s.self.size_ = es.length := hs.1
  have hcap : s.self.size_ ≤ s.self.capacity_ := hs.2.1
  by_cases hinc : should_increase_capacity s = true
  · have hinc' := hinc
    simp only [should_increase_capacity, capacity_increase_factor, Bool.and_eq_true,
      decide_eq_true_eq] at hinc'
    obtain ⟨s1, h1, hsz1, hcap1, -, hlim1, hs1⟩ :=
      try_expand_capacity_grows hs hinc'.1 hinc'.2 (halloc hinc)
    obtain ⟨s2, h2, -, hcap2, hlim2, hs2⟩ :=
      construct_back_holds hs1 (by rw [hsz1, hcap1]; split_ifs <;> omega) item
    refine ⟨s2, ?_, by rw [hlim2, hlim1], hs2, by rw [if_pos hinc, hcap2, hcap1]⟩
    simp only [push_back, h1]
    exact h2
  · have hno : should_increase_capacity s = false := by
      cases hb : should_increase_capacity s
      · rfl
      · exact absurd hb hinc
    have hroom' : s.self.size_ < s.self.capacity_ := by
      rcases hroom with h | h
      · exact h
      · simp only [should_increase_capacity, capacity_increase_factor, Bool.and_eq_false_iff,
          decide_eq_false_iff_not] at hno
        rcases hno with h' | h'
        · exact absurd h h'
        · omega
    obtain ⟨s2, h2, -, hcap2, hlim2, hs2⟩ := construct_back_holds hs hroom' item
    refine ⟨s2, ?_, hlim2, hs2, by rw [if_neg hinc, hcap2]⟩
    simp only [push_back, try_expand_capacity_idle hno]
    exact h2

theorem push_back_keeps_power {s : State T} {es : List T} (hs : Holds s es) (item : T)
    {k : Nat} (hpos : 1 ≤ es.length) (hk : s.self.capacity_ = 3 ^ k)
    (hlo : 3 * es.length ≤ 3 ^ k) (hhi : 3 ^ k < 9 * es.length)
    (hN : es.length + 1 ≤ 3 ^ 39)
    (halloc : min (9 * (es.length + 1)) SIZE_MAX ≤ s.heap.limit) :
    ∃ s' j, push_back s item = .ok () s' ∧ s'.heap.limit = s.heap.limit ∧
      Holds s' (es ++ [item]) ∧ s'.self.capacity_ = 3 ^ j ∧
      3 * (es.length + 1) ≤ 3 ^ j ∧ 3 ^ j < 9 * (es.length + 1) ∧
      (s'.self.capacity_ = s.self.capacity_ ∨ s'.self.capacity_ = 3 * s.self.capacity_) := by
  have hsize : s.self.size_ = es.length := hs.1
  have hk1 : 1 ≤ k := by
    rcases Nat.eq_zero_or_pos k with h0 | h0
    · subst h0
      simp at hlo
      omega
    · exact h0
  obtain ⟨m, hm⟩ : ∃ m, 3 ^ k = 3 * m := ⟨3 ^ (k - 1), by
    have : k = (k - 1) + 1 := by omega
    conv_lhs => rw [this]
    rw [Nat.pow_succ, Nat.mul_comm]⟩
  have h39 := pow_three_39_lt
  have h40 := pow_three_40_le
  have hpow : (3 : Nat) ^ 40 = 3 * 3 ^ 39 := by
    rw [show (40 : Nat) = 39 + 1 from rfl, Nat.pow_succ, Nat.mul_comm]
  rcases Nat.lt_or_ge es.length m with hgt | hle
  · -- the block still has three free slots for each element
    have hno : should_increase_capacity s = false := by
      simp only [should_increase_capacity, capacity_increase_factor, Bool.and_eq_false_iff,
        decide_eq_false_iff_not]
      right
      rw [hk, hm, hsize]
      omega
    obtain ⟨s', h1, h2, h3, h4⟩ := push_back_capacity hs item
      (Or.inl (by rw [hk, hm, hsize]; omega)) (fun h => by rw [hno] at h; cases h)
    rw [hno] at h4
    simp only [Bool.false_eq_true, if_false] at h4
    exact ⟨s', k, h1, h2, h3, by rw [h4, hk], by omega, by omega, Or.inl h4⟩
  · -- `capacity == 3 * size`: the block is tripled
    have hcm : m = es.length := by omega
    have hlt40 : 3 ^ k < 3 ^ 40 := by rw [hpow, hm]; omega
    have hle39 := pow_three_le_of_lt hlt40
    have hlt : s.self.capacity_ < SIZE_MAX / 3 := by rw [hk]; omega
    have hinc : should_increase_capacity s = true := by
      simp only [should_increase_capacity, capacity_increase_factor, Bool.and_eq_true,
        decide_eq_true_eq]
      refine ⟨hlt, ?_⟩
      rw [hk, hm, hsize]
      omega
    have hne : s.self.capacity_ ≠ 0 := by rw [hk, hm]; omega
    obtain ⟨s', h1, h2, h3, h4⟩ := push_back_capacity hs item (Or.inr hlt)
      (fun _ => by
        rw [if_neg hne, hk]
        rw [SIZE_MAX_eq] at halloc h40
        omega)
    rw [if_pos hinc, if_neg hne] at h4
    refine ⟨s', k + 1, h1, h2, h3, by rw [h4, hk, Nat.pow_succ, Nat.mul_comm], ?_, ?_,
      Or.inr h4⟩
    · rw [Nat.pow_succ]; omega
    · rw [Nat.pow_succ]; omega

theorem push_back_all_keeps_power (vs : List T) : ∀ {s : State T} {es : List T} {k : Nat},
    Holds s es → 1 ≤ es.length → s.self.capacity_ = 3 ^ k →
    3 * es.length ≤ 3 ^ k → 3 ^ k < 9 * es.length →
    es.length + vs.length ≤ 3 ^ 39 →
    min (9 * (es.length + vs.length)) SIZE_MAX ≤ s.heap.limit →
    ∃ s' j, push_back_all s vs = .ok () s' ∧ s'.heap.limit = s.heap.limit ∧
      Holds s' (es ++ vs) ∧ s'.self.capacity_ = 3 ^ j ∧
      3 * (es.length + vs.length) ≤ 3 ^ j ∧ 3 ^ j < 9 * (es.length + vs.length) := by
  induction vs with
  | nil =>
    intro s es k hs _ hk hlo hhi _ _
    exact ⟨s, k, rfl, rfl, by simpa using hs, hk, by simpa using hlo, by simpa using hhi⟩
  | cons x xs ih =>
    intro s es k hs hpos hk hlo hhi hN halloc
    simp only [List.length_cons] at hN halloc
    obtain ⟨s1, j, h1, hlim1, hs1, hj, hlo1, hhi1, -⟩ :=
      push_back_keeps_power hs x hpos hk hlo hhi (by omega) (by omega)
    have hlen : (es ++ [x]).length = es.length + 1 := by simp
    obtain ⟨s2, i, h2, hlim2, hs2, hi, hlo2, hhi2⟩ :=
      ih hs1 (by rw [hlen]; omega) hj (by rw [hlen]; exact hlo1) (by rw [hlen]; exact hhi1)
        (by rw [hlen]; omega) (by rw [hlen, hlim1]; omega)
    refine ⟨s2, i, ?_, by rw [hlim2, hlim1], by simpa using hs2, hi, ?_, ?_⟩
    · simp only [push_back_all, h1]
      exact h2
    · rw [hlen] at hlo2; simp only [List.length_cons]; omega
    · rw [hlen] at hhi2; simp only [List.length_cons]; omega

theorem vector_default_holds_of {h : Heap T} (hlim : 1 ≤ h.limit) :
    ∃ d, vector_default h = .ok () d ∧ d.self.capacity_ = 1 ∧ d.heap.limit = h.limit ∧
      Holds d [] := by
  obtain ⟨d, h1, -, h3, -, h5, h6⟩ :=
    reserve_holds (fresh_holds h) (n := 1) (by decide) (Nat.zero_le 1) hlim (by decide)
  exact ⟨d, h1, h3, h5, h6⟩

theorem smallest_power_of_three {n k : Nat} (hhi : 3 ^ k < 9 * n) :
    ∀ j, 3 * n ≤ 3 ^ j → 3 ^ k ≤ 3 ^ j := by
  intro j hj
  rcases Nat.lt_or_ge j k with hlt | hge
  · have h1 : 3 ^ (j + 1) ≤ 3 ^ k := Nat.pow_le_pow_right (by decide) hlt
    rw [Nat.pow_succ] at h1
    omega
  · exact Nat.pow_le_pow_right (by decide) hge

theorem first_push_back {d : State T} (hd : Holds d []) (hcap : d.self.capacity_ = 1)
    (hlim : 3 ≤ d.heap.limit) (item : T) :
    ∃ s, push_back d item = .ok () s ∧ s.heap.limit = d.heap.limit ∧ Holds s [item] ∧
      s.self.capacity_ = 3 := by
  have hinc : should_increase_capacity d = true := by
    have h0 : d.self.size_ = 0 := hd.1
    simp only [should_increase_capacity, capacity_increase_factor, Bool.and_eq_true,
      decide_eq_true_eq, hcap, h0, SIZE_MAX_eq]
    decide
  obtain ⟨s, h1, h2, h3, h4⟩ := push_back_capacity hd item
    (Or.inr (by rw [hcap, SIZE_MAX_eq]; decide)) (fun _ => by rw [hcap]; exact hlim)
  rw [if_pos hinc, hcap] at h4
  exact ⟨s, h1, h2, by simpa using h3, h4⟩

/-! ## C11: `resize` at or below the size -/

/-- C11 (as stated, refuted): on `two_elements`, the vector `[10, 20]` of
capacity 9, `resize(2, 7)` has `new_size == size`; it returns with size 2 and
the same elements, but in a new block of capacity 2. -/
theorem resize_to_size_reallocates :
    push_back_all default_vector [10, 20] = .ok () two_elements ∧
    get_size two_elements = 2 ∧ get_capacity two_elements = 9 ∧
    ∃ s', resize_fill two_elements 2 7 = .ok () s' ∧ get_size s' = 2 ∧
      get_capacity s' = 2 ∧ s'.self.data_ = some 3 ∧
      «at» s' 0 = .ok 10 s' ∧ «at» s' 1 = .ok 20 s' :=
  ⟨by decide, rfl, rfl, _, rfl, rfl, rfl, rfl, by decide, by decide⟩

/-- C11 (amended): on every well-formed vector holding `es`, `resize(n, v)`
with `n < size` returns without changing anything, and so does `resize(0, v)`
on an empty vector; with `n == size > 0`, the allocator granting `n` slots,
it returns with the size unchanged and `at(i) == es[i]` for every `i < size`,
and with `get_capacity() == n`. -/
theorem resize_at_or_below_size (s : State T) (es : List T) (hs : Holds s es) (n : Nat)
    (item : T) :
    (n < get_size s → resize_fill s n item = .ok () s) ∧
    (n = get_size s → n = 0 → resize_fill s n item = .ok () s) ∧
    (n = get_size s → 0 < n → n ≤ s.heap.limit →
      ∃ s', resize_fill s n item = .ok () s' ∧ get_size s' = get_size s ∧
        get_capacity s' = n ∧ ∀ i (hi : i < es.length), «at» s' i = .ok es[i] s') := by
  have hsize : s.self.size_ = es.length := hs.1
  have hcap : s.self.size_ ≤ s.self.capacity_ := hs.2.1
  have hmax : s.self.capacity_ ≤ SIZE_MAX := hs.2.2.1
  refine ⟨fun hn => resize_fill_below s hn item, ?_, ?_⟩
  · intro hn h0
    subst h0
    exact resize_fill_empty s hn.symm item
  · intro hn hpos hlim
    have hn' : n = s.self.size_ := hn
    obtain ⟨s', h1, h2, -, h4, -, hs'⟩ :=
      resize_fill_holds hs (n := n) (by omega) hlim (by omega) item
    have hzero : n - es.length = 0 := by omega
    rw [hzero] at hs'
    simp only [List.replicate_zero, List.append_nil] at hs'
    exact ⟨s', h1, by rw [get_size, get_size, h2, hn'], h4 (by omega),
      fun i hi => at_holds hs' hi⟩

/-- C11 (amended), on the vector `[10, 20]` of capacity 9: `resize(1, 7)`
changes nothing, `resize(2, 7)` keeps the size and the elements. -/
theorem resize_at_or_below_size_witness :
    Holds two_elements [10, 20] ∧
    resize_fill two_elements 1 7 = .ok () two_elements ∧
    ∃ s', resize_fill two_elements 2 7 = .ok () s' ∧ get_size s' = 2 ∧
      get_capacity s' = 2 ∧ «at» s' 0 = .ok 10 s' ∧ «at» s' 1 = .ok 20 s' := by
  have h := resize_at_or_below_size two_elements [10, 20] two_elements_holds
  obtain ⟨s', h1, h2, h3, h4⟩ := (h 2 7).2.2 rfl (by decide) (by decide)
  exact ⟨two_elements_holds, (h 1 7).1 (by decide), s', h1, h2, h3,
    h4 0 (by decide), h4 1 (by decide)⟩

/-! ## C12: allocation failure -/

/-- C12: in every state, if `allocate` fails in `reserve(n)` with `n > 0`, in
the `reserve` call made by the growth step of `push_back` or `emplace_back`, or
in copy assignment or copy construction, the call throws `bad_alloc` in the
state it started from: memory and every member of the vector are unchanged. -/
theorem allocation_failure_changes_nothing (s : State T) (n : Nat) (item : T) :
    (0 < n → s.heap.allocate n = none → reserve s n = .threw .bad_alloc s) ∧
    (should_increase_capacity s = true →
      s.heap.allocate (expand_request s.self.capacity_).2 = none →
      (expand_request s.self.capacity_).2 ≠ 0 ∧
      try_expand_capacity s = .threw .bad_alloc s ∧
      push_back s item = .threw .bad_alloc s ∧
      emplace_back s item = .threw .bad_alloc s) ∧
    (∀ other : Vec, s.heap.allocate other.capacity_ = none →
      copy_assign { heap := s.heap, self := s.self, other := other } =
        .threw .bad_alloc { heap := s.heap, self := s.self, other := other } ∧
      copy_construct s.heap other =
        .threw .bad_alloc { heap := s.heap, self := Vec.fresh, other := other }) := by
  refine ⟨fun hpos hfail => reserve_alloc_fails (Nat.pos_iff_ne_zero.mp hpos) hfail, ?_, ?_⟩
  · intro hinc hfail
    have hinc' := hinc
    simp only [should_increase_capacity, capacity_increase_factor, Bool.and_eq_true,
      decide_eq_true_eq] at hinc'
    have hreq := (expand_request_eq hinc'.1).1
    have hne : (expand_request s.self.capacity_).2 ≠ 0 := by
      rw [hreq]; split_ifs <;> omega
    have htry : try_expand_capacity s = .threw .bad_alloc s := by
      simp only [try_expand_capacity, hinc, Bool.not_true]
      exact reserve_alloc_fails hne hfail
    exact ⟨hne, htry, by simp only [push_back, htry], by simp only [emplace_back, htry]⟩
  · intro other hfail
    constructor
    · simp [copy_assign, copy_from, hfail]
    · simp [copy_construct, copy_from, hfail]

/-- C12, on the vector `[10]` of capacity 3 built with an allocator that
grants at most 4 slots: `reserve(5)` and `push_back(20)`, which asks for 9
slots, throw and leave the state as it was. -/
theorem allocation_failure_changes_nothing_witness :
    (∃ d, vector_default { blocks := [], limit := 4, trace := [] } = .ok () d ∧
      push_back d 10 = .ok () one_element_tight) ∧
    reserve one_element_tight 5 = .threw .bad_alloc one_element_tight ∧
    push_back one_element_tight 20 = .threw .bad_alloc one_element_tight := by
  have h := allocation_failure_changes_nothing one_element_tight 5 20
  exact ⟨⟨_, rfl, by decide⟩, h.1 (by decide) (by decide),
    (h.2.1 (by decide) (by decide)).2.2.1⟩

/-! ## C13: construction -/

/-- C13: in every memory whose allocator grants `c` slots, `vector(c)`
returns with `get_size() == 0`, `get_capacity() == c` and `empty()` true, with
`data_ == nullptr` when `c == 0` and a fresh block of `c` raw slots otherwise;
if the allocator grants one slot, `vector()` returns with size 0, capacity 1
and `empty()` true. -/
theorem construction_postcondition (h : Heap T) (c : Nat) :
    (c ≤ h.limit →
      ∃ s, vector_with_capacity h c = .ok () s ∧ get_size s = 0 ∧ get_capacity s = c ∧
        empty s = true ∧ (c = 0 → s.self.data_ = none ∧ s.heap = h) ∧
        (0 < c → s.self.data_ = some h.blocks.length ∧
          s.heap.blocks[h.blocks.length]? =
            some { cells := List.replicate c none, live := true })) ∧
    (1 ≤ h.limit →
      ∃ s, vector_default h = .ok () s ∧ get_size s = 0 ∧ get_capacity s = 1 ∧
        empty s = true) := by
  constructor
  · intro hlim
    rcases Nat.eq_zero_or_pos c with h0 | hpos
    · subst h0
      exact ⟨{ heap := h, self := Vec.fresh }, reserve_zero _, rfl, rfl, rfl,
        fun _ => ⟨rfl, rfl⟩, fun hc => absurd hc (Nat.lt_irrefl 0)⟩
    · have hne : c ≠ 0 := Nat.pos_iff_ne_zero.mp hpos
      refine ⟨{ heap := { h with
                  blocks := h.blocks ++ [{ cells := List.replicate c none, live := true }]
                  trace := h.trace ++ [Event.allocate h.blocks.length c] },
                self := { size_ := 0, capacity_ := c, data_ := some h.blocks.length } },
        ?_, rfl, rfl, rfl, fun hc => absurd hc hne,
        fun _ => ⟨rfl, List.getElem?_concat_length _ _⟩⟩
      simp only [vector_with_capacity, reserve, hne, if_false, Heap.allocate_of hlim,
        Vec.fresh]
  · intro hlim
    refine ⟨{ heap := { h with
                blocks := h.blocks ++ [{ cells := List.replicate 1 none, live := true }]
                trace := h.trace ++ [Event.allocate h.blocks.length 1] },
              self := { size_ := 0, capacity_ := 1, data_ := some h.blocks.length } },
      ?_, rfl, rfl, rfl⟩
    simp only [vector_default, vector_with_capacity, reserve, Nat.one_ne_zero, if_false,
      Heap.allocate_of hlim, Vec.fresh]

/-- C13, in the empty memory: `vector(0)`, `vector(5)` and `vector()`. -/
theorem construction_postcondition_witness :
    vector_with_capacity (Heap.empty Nat) 0 =
      .ok () { heap := Heap.empty Nat, self := Vec.fresh } ∧
    (∃ s, vector_with_capacity (Heap.empty Nat) 5 = .ok () s ∧ get_size s = 0 ∧
      get_capacity s = 5 ∧ empty s = true) ∧
    vector_default (Heap.empty Nat) = .ok () default_vector ∧
    get_size default_vector = 0 ∧ get_capacity default_vector = 1 ∧
    empty default_vector = true := by
  obtain ⟨s, h1, h2, h3, h4, -⟩ :=
    (construction_postcondition (Heap.empty Nat) 5).1 (by decide)
  exact ⟨by decide, ⟨s, h1, h2, h3, h4⟩, by decide, rfl, rfl, rfl⟩

/-! ## C14: the calls to the allocator -/

/-- C14 (the code at the failing inputs).  After `vector<T> v; v.clear();`
the block has been released once and `data_` still points to it, so that the
destructor releases it a second time.  The destructor of `vector<T> v(0);`,
of capacity 0, calls `deallocate(nullptr, 0)`.  `steal_from`, the whole body
of the move assignment, run on a default-constructed vector with the vector
`[10]` as `other`, drops the pointer to the block the destination owned:
after the destructor of the destination that block is still allocated, and
the destructor of the source destroys an element through its null pointer. -/
theorem allocator_discipline_broken :
    (vector_default (Heap.empty Nat) = .ok () default_vector ∧
      ∃ s1, clear default_vector = .ok () s1 ∧
        s1.heap.trace = [Event.allocate 0 1, Event.deallocate (some 0) 1] ∧
        s1.self.data_ = some 0 ∧ destructor s1 = .ub) ∧
    (∃ s0 s1, vector_with_capacity (Heap.empty Nat) 0 = .ok () s0 ∧ get_capacity s0 = 0 ∧
      destructor s0 = .ok () s1 ∧ s1.heap.trace = [Event.deallocate none 0]) ∧
    (∃ d m f, vector_default one_element.heap = .ok () d ∧ d.self.data_ = some 2 ∧
      steal_from { heap := d.heap, self := d.self, other := one_element.self } = .ok () m ∧
      destructor m.dest = .ok () f ∧
      f.heap.blocks[2]? = some { cells := [none], live := true } ∧
      f.heap.trace = [Event.allocate 0 1, Event.allocate 1 3, Event.deallocate (some 0) 1,
        Event.allocate 2 1, Event.deallocate (some 1) 3] ∧
      destructor { heap := f.heap, self := m.other } = .ub) :=
  ⟨⟨by decide, _, rfl, rfl, rfl, by decide⟩, ⟨_, _, rfl, rfl, rfl, rfl⟩,
    ⟨_, _, _, rfl, rfl, rfl, rfl, rfl, rfl, by decide⟩⟩

/-! ## C15: room for the new element -/

/-- C17: for every non-empty list `vs` of at most `3 ^ 39` values, the
allocator granting the requests made, pushing back the values of `vs` on a
default-constructed vector, of capacity 1, returns with `get_size()` the
length `N` of `vs` and `get_capacity()` the smallest power of 3 that is at
least `3 * N`, so that `3 * size <= capacity`; and a further `push_back`
leaves the capacity as it is or multiplies it by 3. -/
theorem capacity_after_push_backs (h : Heap T) (vs : List T) (hne : vs ≠ [])
    (hN : vs.length ≤ 3 ^ 39) (halloc : min (9 * vs.length) SIZE_MAX ≤ h.limit) :
    ∃ d s k, vector_default h = .ok () d ∧ get_capacity d = 1 ∧
      push_back_all d vs = .ok () s ∧ get_size s = vs.length ∧
      get_capacity s = 3 ^ k ∧ 3 * vs.length ≤ 3 ^ k ∧
      (∀ j, 3 * vs.length ≤ 3 ^ j → 3 ^ k ≤ 3 ^ j) ∧
      3 * get_size s ≤ get_capacity s ∧
      (∀ item, vs.length + 1 ≤ 3 ^ 39 → min (9 * (vs.length + 1)) SIZE_MAX ≤ h.limit →
        ∃ s', push_back s item = .ok () s' ∧
          (get_capacity s' = get_capacity s ∨ get_capacity s' = 3 * get_capacity s)) := by
  cases vs with
  | nil => exact absurd rfl hne
  | cons x xs =>
    simp only [List.length_cons] at hN halloc
    have hmax := SIZE_MAX_eq
    obtain ⟨d, hd, hcap, hlim, hds⟩ := vector_default_holds_of (h := h) (by omega)
    obtain ⟨s1, h1, hlim1, hs1, hcap1⟩ := first_push_back hds hcap (by omega) x
    obtain ⟨s, k, h2, hlim2, hs2, hk, hlo, hhi⟩ :=
      push_back_all_keeps_power xs (k := 1) hs1 (by simp) (by rw [hcap1]; rfl)
        (by simp) (by simp) (by simpa [Nat.add_comm] using hN)
        (by rw [hlim1, hlim]; simpa [Nat.add_comm] using halloc)
    simp only [List.length_singleton, List.singleton_append] at hs2 hlo hhi
    have hlen : (x :: xs).length = 1 + xs.length := by simp [Nat.add_comm]
    have hsz : s.self.size_ = (x :: xs).length := hs2.1
    refine ⟨d, s, k, hd, hcap, ?_, hsz, hk, by rw [hlen]; exact hlo,
      smallest_power_of_three (by rw [hlen]; exact hhi), ?_, ?_⟩
    · simp only [push_back_all, h1]
      exact h2
    · show 3 * s.self.size_ ≤ s.self.capacity_
      rw [hsz, hk, hlen]; exact hlo
    · intro item hN' halloc'
      simp only [List.length_cons] at hN' halloc'
      obtain ⟨s', j, k1, -, -, -, -, -, k7⟩ :=
        push_back_keeps_power hs2 item (k := k) (by simp) hk (by rw [hlen]; exact hlo)
          (by rw [hlen]; exact hhi) (by simpa using hN')
          (by rw [hlim2, hlim1, hlim]; simpa using halloc')
      exact ⟨s', k1, k7⟩

/-- C17, on `vector<T> v;` and the values 10, 20, 30, 40: the capacities are
1, then 3, 9, 9 and 27. -/
theorem capacity_after_push_backs_witness :
    (∃ d s k, vector_default (Heap.empty Nat) = .ok () d ∧ get_capacity d = 1 ∧
      push_back_all d [10, 20, 30, 40] = .ok () s ∧ get_size s = 4 ∧
      get_capacity s = 3 ^ k ∧ 3 * 4 ≤ 3 ^ k ∧ 3 * get_size s ≤ get_capacity s) ∧
    (∃ s1 s2 s3 s4, push_back default_vector 10 = .ok () s1 ∧ get_capacity s1 = 3 ∧
      push_back s1 20 = .ok () s2 ∧ get_capacity s2 = 9 ∧
      push_back s2 30 = .ok () s3 ∧ get_capacity s3 = 9 ∧
      push_back s3 40 = .ok () s4 ∧ get_capacity s4 = 27) := by
  obtain ⟨d, s, k, h1, h2, h3, h4, h5, h6, -, h8, -⟩ :=
    capacity_after_push_backs (Heap.empty Nat) [10, 20, 30, 40] (by decide) (by decide)
      (by decide)
  exact ⟨⟨d, s, k, h1, h2, h3, h4, h5, h6, h8⟩, _, _, _, _, rfl, rfl, rfl, rfl, rfl, rfl,
    rfl, rfl⟩

/-! ## C18: the multiplication in `try_expand_capacity` -/

/-- C18: in every state in which `try_expand_capacity` calls `reserve`, that
is, in which `should_increase_capacity()` is true, the local `capacity` of
`try_expand_capacity` is not clamped, its product with 3 is at most `SIZE_MAX`,
and that product, not reduced modulo `2 ^ 64`, is the argument of `reserve`. -/
theorem expand_multiplication_does_not_wrap (s : State T)
    (hinc : should_increase_capacity s = true) :
    (expand_request s.self.capacity_).1 * capacity_increase_factor ≤ SIZE_MAX ∧
    (expand_request s.self.capacity_).1 =
      (if s.self.capacity_ = 0 then 1 else s.self.capacity_) ∧
    (expand_request s.self.capacity_).2 =
      (expand_request s.self.capacity_).1 * capacity_increase_factor ∧
    try_expand_capacity s =
      reserve s ((expand_request s.self.capacity_).1 * capacity_increase_factor) := by
  have hinc' := hinc
  simp only [should_increase_capacity, capacity_increase_factor, Bool.and_eq_true,
    decide_eq_true_eq] at hinc'
  obtain ⟨hreq, hbase⟩ := expand_request_eq hinc'.1
  have hlt := hinc'.1
  rw [SIZE_MAX_eq] at hlt
  have hprod : (expand_request s.self.capacity_).2 =
      (expand_request s.self.capacity_).1 * capacity_increase_factor := by
    rw [hreq, hbase, capacity_increase_factor, Nat.mul_comm]
  refine ⟨?_, hbase, hprod, ?_⟩
  · rw [hbase, capacity_increase_factor, SIZE_MAX_eq]
    split_ifs <;> omega
  · rw [← hprod]
    simp only [try_expand_capacity, hinc, Bool.not_true]
    rfl

/-- C18, on the vector `[10]` of capacity 3: the request is `3 * 3 == 9`. -/
theorem expand_multiplication_does_not_wrap_witness :
    should_increase_capacity one_element = true ∧
    (expand_request one_element.self.capacity_).1 * capacity_increase_factor = 9 ∧
    9 ≤ SIZE_MAX ∧
    try_expand_capacity one_element = reserve one_element 9 := by
  have h := expand_multiplication_does_not_wrap one_element (by decide)
  exact ⟨by decide, by decide, by decide, h.2.2.2⟩

/-! ## C19: the `reserve` call of `resize` -/

/-- C19 (as stated, refuted): on `two_elements`, the vector `[10, 20]` of
capacity 9, `resize(5, 7)` has `size <= 5 <= capacity`, and it returns with
capacity 5, not 9. -/
theorem resize_within_capacity_reallocates :
    push_back_all default_vector [10, 20] = .ok () two_elements ∧
    get_size two_elements = 2 ∧ get_capacity two_elements = 9 ∧
    ∃ s', resize_fill two_elements 5 7 = .ok () s' ∧ get_size s' = 5 ∧
      get_capacity s' = 5 :=
  ⟨by decide, rfl, rfl, _, rfl, rfl, rfl⟩

/-- C19 (amended): on every well-formed vector of size `s` and capacity
`c`, for every `n` with `s <= n <= c`, the allocator granting `n` slots,
`resize(n, v)` returns with `get_capacity() == n` when `n > 0`, since it
always calls `reserve(n)`, and with the capacity unchanged when `n == 0`; so
the capacity is still `c` exactly when `n == c` or `n == 0`. -/
theorem resize_always_reserves (s : State T) (es : List T) (hs : Holds s es) (n : Nat)
    (item : T) (hlo : get_size s ≤ n) (hhi : n ≤ get_capacity s) (hlim : n ≤ s.heap.limit) :
    ∃ s', resize_fill s n item = .ok () s' ∧
      get_capacity s' = (if n = 0 then get_capacity s else n) ∧
      (get_capacity s' = get_capacity s ↔ n = get_capacity s ∨ n = 0) := by
  have hsize : s.self.size_ = es.length := hs.1
  have hmax : s.self.capacity_ ≤ SIZE_MAX := hs.2.2.1
  have hlo' : s.self.size_ ≤ n := hlo
  have hhi' : n ≤ s.self.capacity_ := hhi
  rcases Nat.eq_zero_or_pos n with h0 | hpos
  · subst h0
    refine ⟨s, resize_fill_empty s (by omega) item, by simp, ?_⟩
    simp
  · obtain ⟨s', h1, -, -, h4, -, -⟩ :=
      resize_fill_holds hs (n := n) (by omega) hlim (by omega) item
    have hne : n ≠ 0 := by omega
    have hc : get_capacity s' = n := h4 hne
    refine ⟨s', h1, by simp [hne, hc], ?_⟩
    rw [hc]
    constructor
    · intro h; exact Or.inl h
    · rintro (h | h)
      · exact h
      · exact absurd h hne

/-- C19 (amended), on the vector `[10, 20]` of capacity 9 and `resize(5, 7)`. -/
theorem resize_always_reserves_witness :
    Holds two_elements [10, 20] ∧
    ∃ s', resize_fill two_elements 5 7 = .ok () s' ∧ get_capacity s' = 5 := by
  obtain ⟨s', h1, h2, -⟩ :=
    resize_always_reserves two_elements [10, 20] two_elements_holds 5 7
      (by decide) (by decide) (by decide)
  exact ⟨two_elements_holds, s', h1, h2⟩

/-! ## C20: `pop_back` after `push_back` -/

end getcracked

